import Mathlib

/-!
Verification of the Clip Curation and Assembly Engine of the
VideoClipChatbot repository (src/server.js, src/video_generator.js).

JavaScript numbers are modelled as the type JsNum: an exact rational
together with the three non-finite double values NaN, +Infinity and
-Infinity that the code can actually produce (through 0/0, parseFloat
failures, the Infinity literal, and Math.min/Math.max propagation).
Rounding of IEEE doubles is not modelled: every finite number is an
exact rational, which is faithful for the integer- and small-decimal
arithmetic these functions perform.
-/

/-- Model of a JavaScript number: NaN, the two infinities, or a finite
value represented exactly as a rational. -/
inductive JsNum where
  | nan : JsNum
  | posInf : JsNum
  | negInf : JsNum
  | val : ℚ → JsNum
deriving DecidableEq

namespace JsNum

/-- JavaScript addition on numbers (NaN propagates, Infinity - Infinity is NaN). -/
def add : JsNum → JsNum → JsNum
  | nan, _ => nan
  | _, nan => nan
  | posInf, negInf => nan
  | negInf, posInf => nan
  | posInf, _ => posInf
  | _, posInf => posInf
  | negInf, _ => negInf
  | _, negInf => negInf
  | val a, val b => val (a + b)

/-- JavaScript unary negation. -/
def neg : JsNum → JsNum
  | nan => nan
  | posInf => negInf
  | negInf => posInf
  | val a => val (-a)

/-- JavaScript subtraction. -/
def sub (a b : JsNum) : JsNum := add a (neg b)

/-- JavaScript multiplication (0 * Infinity is NaN). -/
def mul : JsNum → JsNum → JsNum
  | nan, _ => nan
  | _, nan => nan
  | posInf, posInf => posInf
  | posInf, negInf => negInf
  | negInf, posInf => negInf
  | negInf, negInf => posInf
  | posInf, val b => if b = 0 then nan else if 0 < b then posInf else negInf
  | val a, posInf => if a = 0 then nan else if 0 < a then posInf else negInf
  | negInf, val b => if b = 0 then nan else if 0 < b then negInf else posInf
  | val a, negInf => if a = 0 then nan else if 0 < a then negInf else posInf
  | val a, val b => val (a * b)

/-- JavaScript division (x/0 gives a signed infinity, 0/0 gives NaN;
negative zero is identified with zero). -/
def div : JsNum → JsNum → JsNum
  | nan, _ => nan
  | _, nan => nan
  | posInf, posInf => nan
  | posInf, negInf => nan
  | negInf, posInf => nan
  | negInf, negInf => nan
  | posInf, val b => if 0 ≤ b then posInf else negInf
  | negInf, val b => if 0 ≤ b then negInf else posInf
  | val _, posInf => val 0
  | val _, negInf => val 0
  | val a, val b =>
    if b = 0 then (if a = 0 then nan else if 0 < a then posInf else negInf)
    else val (a / b)

/-- JavaScript strict less-than: any comparison with NaN is false. -/
def ltB : JsNum → JsNum → Bool
  | nan, _ => false
  | _, nan => false
  | val a, val b => decide (a < b)
  | negInf, negInf => false
  | negInf, _ => true
  | _, negInf => false
  | posInf, _ => false
  | _, posInf => true

/-- JavaScript less-or-equal: any comparison with NaN is false. -/
def leB : JsNum → JsNum → Bool
  | nan, _ => false
  | _, nan => false
  | val a, val b => decide (a ≤ b)
  | negInf, _ => true
  | _, negInf => false
  | _, posInf => true
  | posInf, val _ => false

/-- Math.max on two numbers: NaN if either argument is NaN. -/
def maxJ : JsNum → JsNum → JsNum
  | nan, _ => nan
  | _, nan => nan
  | a, b => if ltB a b then b else a

/-- Math.min on two numbers: NaN if either argument is NaN. -/
def minJ : JsNum → JsNum → JsNum
  | nan, _ => nan
  | _, nan => nan
  | a, b => if ltB b a then b else a

/-- Number.isNaN. -/
def isNaNB : JsNum → Bool
  | nan => true
  | _ => false

/-- Number.isFinite. -/
def isFiniteB : JsNum → Bool
  | val _ => true
  | _ => false

/-- The JavaScript idiom x || 0: NaN (and zero itself) is replaced by zero. -/
def orZero : JsNum → JsNum
  | nan => val 0
  | val q => val q
  | x => x

/-- The value is a non-negative finite number or +Infinity (never NaN and
never negative). -/
def IsNonneg : JsNum → Prop
  | val q => 0 ≤ q
  | posInf => True
  | nan => False
  | negInf => False

@[simp] theorem add_val (a b : ℚ) : add (val a) (val b) = val (a + b) := rfl

@[simp] theorem sub_val (a b : ℚ) : sub (val a) (val b) = val (a - b) := by
  simp [sub, add, neg, sub_eq_add_neg]

@[simp] theorem mul_val (a b : ℚ) : mul (val a) (val b) = val (a * b) := rfl

@[simp] theorem ltB_val (a b : ℚ) : ltB (val a) (val b) = decide (a < b) := rfl

@[simp] theorem leB_val (a b : ℚ) : leB (val a) (val b) = decide (a ≤ b) := rfl

@[simp] theorem maxJ_val (a b : ℚ) : maxJ (val a) (val b) = val (max a b) := by
  by_cases h : a < b
  · simp [maxJ, ltB, h, max_eq_right h.le]
  · simp [maxJ, ltB, h, max_eq_left (not_lt.mp h)]

@[simp] theorem minJ_val (a b : ℚ) : minJ (val a) (val b) = val (min a b) := by
  by_cases h : b < a
  · simp [minJ, ltB, h, min_eq_right h.le]
  · simp [minJ, ltB, h, min_eq_left (not_lt.mp h)]

@[simp] theorem isFiniteB_val (a : ℚ) : isFiniteB (val a) = true := rfl

@[simp] theorem isNaNB_val (a : ℚ) : isNaNB (val a) = false := rfl

@[simp] theorem orZero_val (a : ℚ) : orZero (val a) = val a := rfl

end JsNum

/-!
Character and string helpers mirroring the JavaScript string builtins
the code relies on (trim, split, includes, endsWith, toLowerCase,
substring). Strings are handled as lists of characters.
-/

/-- JavaScript whitespace as used by trim and the regex class backslash-s
(space, tab, line feed, carriage return, vertical tab, form feed). -/
def isWsChar (c : Char) : Bool :=
  c = ' ' || c = '\t' || c = '\n' || c = '\r' || c = '\x0b' || c = '\x0c'

/-- JavaScript String.prototype.trim on a character list. -/
def charTrim (cs : List Char) : List Char :=
  ((cs.dropWhile isWsChar).reverse.dropWhile isWsChar).reverse

/-- JavaScript String.prototype.split with a single-character separator. -/
def charSplit (sep : Char) : List Char → List (List Char)
  | [] => [[]]
  | c :: cs =>
    if c = sep then [] :: charSplit sep cs
    else
      match charSplit sep cs with
      | [] => [[c]]
      | h :: t => (c :: h) :: t

/-- Substring containment (JavaScript String.prototype.includes). -/
def containsSub (hay needle : List Char) : Bool :=
  match hay with
  | [] => needle.isEmpty
  | _ :: t => needle.isPrefixOf hay || containsSub t needle

/-- Case-insensitive suffix test used with the lowered file name
(JavaScript toLowerCase().endsWith(suffix)). -/
def lowerEndsWith (s : String) (suffix : String) : Bool :=
  suffix.data.reverse.isPrefixOf ((s.data.map Char.toLower).reverse)

/-- JavaScript String(x).substring(0, n) on a character list. -/
def takeChars (n : ℕ) (cs : List Char) : List Char := cs.take n

/-- Numeric value of a decimal digit character. -/
def digitVal (c : Char) : ℕ := c.toNat - 48

/-- Decimal value of a list of digit characters (most significant first). -/
def digitsToNat (cs : List Char) : ℕ := cs.foldl (fun a c => 10 * a + digitVal c) 0

/-!
JavaScript number parsing: parseFloat (longest numeric prefix),
parseInt with radix 10 (longest integer prefix), and the Number
conversion (whole-string parse, empty string is 0).
-/

/-- Split an optional leading sign, returning the sign as a rational. -/
def splitSign : List Char → ℚ × List Char
  | [] => (1, [])
  | c :: t => if c = '-' then (-1, t) else if c = '+' then (1, t) else (1, c :: t)

/-- Decimal mantissa value from integer digits and fraction digits. -/
def mantissaVal (intPart fracPart : List Char) : ℚ :=
  (digitsToNat intPart : ℚ) + (digitsToNat fracPart : ℚ) / ((10 : ℚ) ^ fracPart.length)

/-- Apply a base-ten exponent to a rational without integer powers of
negative exponent (JavaScript scientific notation). -/
def applyExp (q : ℚ) (esign : ℚ) (eds : List Char) : ℚ :=
  if esign < 0 then q / ((10 : ℚ) ^ digitsToNat eds) else q * ((10 : ℚ) ^ digitsToNat eds)

/-- JavaScript parseFloat on a character list: skip leading whitespace,
optional sign, the Infinity literal or a decimal mantissa with optional
exponent; NaN when no digits can be read. -/
def jsParseFloatChars (cs0 : List Char) : JsNum :=
  let cs1 := cs0.dropWhile isWsChar
  let sp := splitSign cs1
  let sign := sp.1
  let cs := sp.2
  if cs.take 8 = "Infinity".data then
    (if sign = 1 then JsNum.posInf else JsNum.negInf)
  else
    let intPart := cs.takeWhile Char.isDigit
    let rest := cs.dropWhile Char.isDigit
    let fracAndRest :=
      match rest with
      | '.' :: t => (t.takeWhile Char.isDigit, t.dropWhile Char.isDigit)
      | _ => (([] : List Char), rest)
    let fracPart := fracAndRest.1
    let rest2 := fracAndRest.2
    if intPart = [] ∧ fracPart = [] then JsNum.nan
    else
      let m := sign * mantissaVal intPart fracPart
      match rest2 with
      | e :: t =>
        if e = 'e' ∨ e = 'E' then
          let esp := splitSign t
          let eds := esp.2.takeWhile Char.isDigit
          if eds = [] then JsNum.val m else JsNum.val (applyExp m esp.1 eds)
        else JsNum.val m
      | [] => JsNum.val m

/-- JavaScript parseInt with the default radix on a character list:
skip whitespace, optional sign, longest digit prefix; NaN when empty. -/
def jsParseIntChars (cs0 : List Char) : JsNum :=
  let cs1 := cs0.dropWhile isWsChar
  let sp := splitSign cs1
  let ds := sp.2.takeWhile Char.isDigit
  if ds = [] then JsNum.nan else JsNum.val (sp.1 * (digitsToNat ds : ℚ))

/-- Whole-string decimal literal (digits, optional fraction, optional
exponent); none when the characters are not exactly one literal. -/
def numParseFull (cs : List Char) : Option ℚ :=
  let intPart := cs.takeWhile Char.isDigit
  let rest := cs.dropWhile Char.isDigit
  let fracAndRest :=
    match rest with
    | '.' :: t => (t.takeWhile Char.isDigit, t.dropWhile Char.isDigit)
    | _ => (([] : List Char), rest)
  let fracPart := fracAndRest.1
  let rest2 := fracAndRest.2
  if intPart = [] ∧ fracPart = [] then none
  else
    let m := mantissaVal intPart fracPart
    match rest2 with
    | [] => some m
    | e :: t =>
      if e = 'e' ∨ e = 'E' then
        let esp := splitSign t
        let eds := esp.2.takeWhile Char.isDigit
        if eds = [] ∨ esp.2.dropWhile Char.isDigit ≠ [] then none
        else some (applyExp m esp.1 eds)
      else none

/-- JavaScript Number conversion of a string: trim, empty is 0, a signed
Infinity literal, or a whole-string decimal literal; otherwise NaN. -/
def jsNumberChars (cs0 : List Char) : JsNum :=
  let cs1 := charTrim cs0
  if cs1 = [] then JsNum.val 0
  else
    let sp := splitSign cs1
    if sp.2 = "Infinity".data then
      (if sp.1 = 1 then JsNum.posInf else JsNum.negInf)
    else
      match numParseFull sp.2 with
      | some q => JsNum.val (sp.1 * q)
      | none => JsNum.nan

/-!
FrameExtractor (src/server.js, class FrameExtractor): the timestamp
adjustment inside extractFrame. After the probed duration is validated
as positive, a timestamp at or past the end of the video is moved to
five seconds before the end, and the result is raised to at least one
second; the primary extraction strategy seeks the transcoder to exactly
this adjusted value.
-/

namespace FrameExtractor

/-- Adjusted timestamp handed to the transcoder by the primary strategy
of extractFrame: timestamps at or beyond the probed duration become
duration - 5 (floored at 0), and the result is raised to at least 1. -/
def extractFrameSeek (timestamp duration : ℚ) : ℚ :=
  let adjusted := if duration ≤ timestamp then max 0 (duration - 5) else timestamp
  max 1 adjusted

end FrameExtractor

/-!
Cosine similarity (src/server.js, IndustryStandardVideoExtractor).
The JavaScript function returns dot(a,b) / (sqrt(normA) * sqrt(normB)).
Its result is represented symbolically: the guard branch returns the
plain number 0; when the denominator sqrt(normA)*sqrt(normB) is zero the
division is 0/0 (a zero-norm vector forces a zero dot product), which in
JavaScript is NaN; otherwise the value is dot / sqrt(normA*normB),
recorded as the pair of its numerator and the radicand of its positive
denominator (sqrt(normA)*sqrt(normB) = sqrt(normA*normB)).
-/

/-- Result of cosineSimilarity: an exact number, NaN, or the finite value
num / sqrt radicand with positive radicand. -/
inductive CosResult where
  | nan : CosResult
  | num : ℚ → CosResult
  | ratio : ℚ → ℚ → CosResult
deriving DecidableEq

/-- Sum of pairwise products accumulated by the loop of cosineSimilarity
(the loop only runs when both vectors have the same length). -/
def dotProd (a b : List ℚ) : ℚ := (List.zipWith (fun x y => x * y) a b).sum

/-- Sum of squares accumulated by the loop of cosineSimilarity. -/
def normSq (a : List ℚ) : ℚ := (a.map (fun x => x * x)).sum

/-- cosineSimilarity from src/server.js: mismatched lengths return the
number 0; otherwise dot/(sqrt(normA)*sqrt(normB)), which is NaN exactly
when normA*normB = 0 (then dot = 0 as well, giving 0/0). -/
def cosineSimilarity (a b : List ℚ) : CosResult :=
  if a.length ≠ b.length then CosResult.num 0
  else
    let d := dotProd a b
    let p := normSq a * normSq b
    if p = 0 then CosResult.nan else CosResult.ratio d p

/-- Whether a CosResult is the exact number 0 (a ratio with positive
radicand is 0 exactly when its numerator is 0; NaN is not 0). -/
def CosResult.isZeroValue : CosResult → Bool
  | CosResult.nan => false
  | CosResult.num q => q = 0
  | CosResult.ratio d _ => d = 0

/-!
VideoGenerator (src/video_generator.js): timestamp normalization,
segment deduplication, and the segment-selection behaviour of
generateVideo.
-/

namespace VideoGenerator

/-- A raw clip timestamp as it arrives in a request: a JavaScript number
or a string. -/
inductive RawTs where
  | num : JsNum → RawTs
  | str : String → RawTs

/-- Numeric tail of normalizeTimestamp: coerce NaN to 0 via the
Number(x) || 0 idiom, replace millisecond-epoch magnitudes (over 1e12)
by the safe default 30, rescale likely-millisecond magnitudes
(between 1e4 and 1e9) to seconds, and floor at 0. -/
def normalizeNum (n : JsNum) : JsNum :=
  let num := JsNum.orZero n
  if JsNum.ltB (JsNum.val 1000000000000) num then JsNum.val 30
  else if JsNum.ltB (JsNum.val 10000) num && JsNum.ltB num (JsNum.val 1000000000) then
    JsNum.div num (JsNum.val 1000)
  else JsNum.maxJ (JsNum.val 0) num

/-- normalizeTimestamp from src/video_generator.js. Colon strings are
decomposed positionally through Number() on each part and returned
directly (without the magnitude checks); other strings go through
parseFloat into the numeric tail. -/
def normalizeTimestamp : RawTs → JsNum
  | RawTs.num n => normalizeNum n
  | RawTs.str s =>
    if s.data.contains ':' then
      match (charSplit ':' s.data).map (fun p => jsNumberChars p) with
      | [a, b] => JsNum.add (JsNum.mul a (JsNum.val 60)) b
      | [a, b, c] => JsNum.add (JsNum.add (JsNum.mul a (JsNum.val 3600)) (JsNum.mul b (JsNum.val 60))) c
      | _ => normalizeNum (jsParseFloatChars s.data)
    else normalizeNum (jsParseFloatChars s.data)

/-- normalizeTimes from src/video_generator.js: force end after start
(5 second default span), force a 3 second minimum duration, then clamp
against the probed video duration with a 2 second trailing buffer when
that duration is a finite positive number. -/
def normalizeTimes (rawStart rawEnd : RawTs) (videoDurationSec : JsNum) : JsNum × JsNum :=
  let start := normalizeTimestamp rawStart
  let end0 := normalizeTimestamp rawEnd
  let end1 := if JsNum.leB end0 start then JsNum.add start (JsNum.val 5) else end0
  let end2 := if JsNum.ltB (JsNum.sub end1 start) (JsNum.val 3) then JsNum.add start (JsNum.val 3) else end1
  if JsNum.isFiniteB videoDurationSec && JsNum.ltB (JsNum.val 0) videoDurationSec then
    let maxEnd := JsNum.sub videoDurationSec (JsNum.val 2)
    let adjusted :=
      if JsNum.ltB maxEnd end2 then
        let segmentDuration := JsNum.sub end2 start
        (JsNum.maxJ (JsNum.val 0) (JsNum.sub maxEnd segmentDuration), maxEnd)
      else (start, end2)
    let start2 := JsNum.maxJ (JsNum.val 0) (JsNum.minJ adjusted.1 (JsNum.sub maxEnd (JsNum.val 3)))
    let end3 := JsNum.maxJ (JsNum.add start2 (JsNum.val 3)) (JsNum.minJ adjusted.2 maxEnd)
    (start2, end3)
  else (start, end2)

/-- An assembly segment as received by generateVideo. Optional fields
model properties that may be absent on the JavaScript object. -/
structure Segment where
  type : String
  videoPath : Option String
  text : Option String
  startTime : ℚ
  endTime : ℚ
  relevanceScore : Option ℚ
  qualityScore : Option ℚ
  title : Option String
  description : Option String
  keyTopics : Option (List String)
  duration : Option ℚ
deriving DecidableEq

/-- JavaScript truthiness of an optional string property (absent or
empty is falsy). -/
def truthyStr : Option String → Bool
  | none => false
  | some s => s ≠ ""

/-- Math.round: round half toward positive infinity. -/
def jsRound (q : ℚ) : ℤ := ⌊q + 1 / 2⌋

/-- Decimal rendering of an integer as JavaScript template interpolation
prints it. -/
def intRepr (i : ℤ) : List Char :=
  if i < 0 then '-' :: Nat.toDigits 10 i.natAbs else Nat.toDigits 10 i.natAbs

/-- getSegmentKey from src/video_generator.js: videoPath with a leading
/videos/ removed, the rounded start-end pair and the first 50 characters
of the text, joined with colons. -/
def getSegmentKey (seg : Segment) : List Char :=
  let vp := (seg.videoPath.getD "").data
  let vp := if "/videos/".data.isPrefixOf vp then vp.drop 8 else vp
  let text := (seg.text.getD "").data
  vp ++ (":".data ++ intRepr (jsRound seg.startTime)) ++ ("-".data ++ intRepr (jsRound seg.endTime))
    ++ (":".data ++ takeChars 50 text)

/-- Combined score of a segment used by isBetterSegment: twice the
relevance and quality scores, a closeness-to-30s duration score, and a
metadata-completeness fraction over title, description and keyTopics. -/
def getScore (seg : Segment) : ℚ :=
  let score := (seg.relevanceScore.getD 0) * 2 + (seg.qualityScore.getD 0) * 2
  let duration := seg.endTime - seg.startTime
  let durationScore := 1 - min 1 (|duration - 30| / 30)
  let metaCount : ℚ :=
    (if truthyStr seg.title then 1 else 0) + (if truthyStr seg.description then 1 else 0)
      + (if seg.keyTopics.isSome then 1 else 0)
  score + durationScore + metaCount / 3

/-- isBetterSegment from src/video_generator.js (strict comparison, so a
tie keeps the segment already stored). -/
def isBetterSegment (newSeg existingSeg : Segment) : Bool :=
  getScore newSeg > getScore existingSeg

/-- Update an association list at a key, replacing the first binding or
appending a new one (JavaScript Map.prototype.set). -/
def assocSet (m : List (List Char × Segment)) (k : List Char) (v : Segment) : List (List Char × Segment) :=
  match m with
  | [] => [(k, v)]
  | (k0, v0) :: t => if k0 = k then (k, v) :: t else (k0, v0) :: assocSet t k v

/-- Lookup in an association list (JavaScript Map.prototype.get). -/
def assocFind (m : List (List Char × Segment)) (k : List Char) : Option Segment :=
  match m with
  | [] => none
  | (k0, v0) :: t => if k0 = k then some v0 else assocFind t k

/-- One iteration of the deduplication loop, threading the seen map and
the accumulated unique list. -/
def dedupStep (st : List (List Char × Segment) × List Segment) (seg : Segment) :
    List (List Char × Segment) × List Segment :=
  let seen := st.1
  let us := st.2
  if seg.type = "content" && !truthyStr seg.videoPath then (seen, us)
  else if seg.type = "title" || seg.type = "section_title" || seg.type = "transition"
      || seg.type = "conclusion" then (seen, us ++ [seg])
  else if seg.type = "content" then
    let key := getSegmentKey seg
    match assocFind seen key with
    | none => (assocSet seen key seg, us ++ [seg])
    | some existing =>
      if isBetterSegment seg existing then
        match us.findIdx? (fun x => x = existing) with
        | some i => (assocSet seen key seg, us.set i seg)
        | none => (seen, us)
      else (seen, us)
  else (seen, us)

/-- deduplicateSegments from src/video_generator.js: special segments are
always kept, content segments are collapsed by key, preferring the
better-scored one at its original position. -/
def deduplicateSegments (segments : List Segment) : List Segment :=
  (segments.foldl dedupStep ([], [])).2

/-- The segments the processing loop of generateVideo turns into parts of
the final video, on the success path of every transcoder call: the loop
iterates over the ORIGINAL segments argument (not over the result of
deduplicateSegments, which it computes and only logs). Title, section
and conclusion cards are always produced, transitions only when the
lavfi capability probe succeeded, and any other segment is processed as
content when it carries a truthy videoPath. -/
def generateVideoContents (lavfiSupported : Bool) (segments : List Segment) : List Segment :=
  segments.filter (fun seg =>
    if seg.type = "title" || seg.type = "section_title" || seg.type = "conclusion" then true
    else if seg.type = "transition" then lavfiSupported
    else truthyStr seg.videoPath)

end VideoGenerator

/-!
A JSON value as produced by JSON.parse, and a strict JSON parser
(grammar of RFC 8259: a parse error models the exception JSON.parse
throws). Recursion is fueled; the fuel passed by the entry points is
derived from the input length, which bounds the nesting depth of any
value the string can denote.
-/

/-- A JavaScript value produced by JSON.parse. -/
inductive JsonValue where
  | null : JsonValue
  | bool : Bool → JsonValue
  | num : ℚ → JsonValue
  | str : String → JsonValue
  | arr : List JsonValue → JsonValue
  | obj : List (String × JsonValue) → JsonValue

/-- JavaScript truthiness of a value (objects and arrays are always
truthy, numbers are falsy exactly at 0, strings exactly when empty). -/
def jsTruthy : JsonValue → Bool
  | JsonValue.null => false
  | JsonValue.bool b => b
  | JsonValue.num q => q ≠ 0
  | JsonValue.str s => s ≠ ""
  | JsonValue.arr _ => true
  | JsonValue.obj _ => true

/-- Property lookup on a parsed object (fields are kept with unique keys
by construction, the last duplicate in the source winning). -/
def getField (fields : List (String × JsonValue)) (k : String) : Option JsonValue :=
  fields.foldl (fun r p => if p.1 = k then some p.2 else r) none

/-- Truthiness of a possibly-absent property (absent is undefined, hence
falsy). -/
def truthyOpt : Option JsonValue → Bool
  | none => false
  | some v => jsTruthy v

/-- Insert a key into an object under construction: a duplicate key keeps
its first position and takes the new value, as JSON.parse does. -/
def insertField (fields : List (String × JsonValue)) (k : String) (v : JsonValue) :
    List (String × JsonValue) :=
  match fields with
  | [] => [(k, v)]
  | (k0, v0) :: t => if k0 = k then (k, v) :: t else (k0, v0) :: insertField t k v

/-- JSON whitespace. -/
def isJsonWs (c : Char) : Bool := c = ' ' || c = '\t' || c = '\n' || c = '\r'

/-- Hexadecimal digit value. -/
def hexVal (c : Char) : Option ℕ :=
  if c.isDigit then some (c.toNat - 48)
  else if 'a' ≤ c ∧ c ≤ 'f' then some (c.toNat - 87)
  else if 'A' ≤ c ∧ c ≤ 'F' then some (c.toNat - 55)
  else none

/-- Single-character JSON string escapes. -/
def jsonEscChar (c : Char) : Option Char :=
  if c = '"' then some '"'
  else if c = '\\' then some '\\'
  else if c = '/' then some '/'
  else if c = 'b' then some '\x08'
  else if c = 'f' then some '\x0c'
  else if c = 'n' then some '\n'
  else if c = 'r' then some '\r'
  else if c = 't' then some '\t'
  else none

/-- Parse the body of a JSON string after its opening quote, returning
the decoded characters and the remainder after the closing quote. -/
def parseJsonString : ℕ → List Char → Option (List Char × List Char)
  | 0, _ => none
  | _ + 1, [] => none
  | f + 1, c :: t =>
    if c = '"' then some ([], t)
    else if c = '\\' then
      match t with
      | [] => none
      | e :: t2 =>
        if e = 'u' then
          match t2 with
          | a :: b :: c2 :: d :: t3 =>
            match hexVal a, hexVal b, hexVal c2, hexVal d with
            | some ha, some hb, some hc, some hd =>
              (parseJsonString f t3).map (fun r =>
                (Char.ofNat (((ha * 16 + hb) * 16 + hc) * 16 + hd) :: r.1, r.2))
            | _, _, _, _ => none
          | _ => none
        else
          match jsonEscChar e with
          | some ch => (parseJsonString f t2).map (fun r => (ch :: r.1, r.2))
          | none => none
    else if c.toNat < 32 then none
    else (parseJsonString f t).map (fun r => (c :: r.1, r.2))

/-- Parse a JSON number at the head of the input. -/
def parseJsonNumber (cs : List Char) : Option (ℚ × List Char) :=
  let sp := match cs with
    | '-' :: t => ((-1 : ℚ), t)
    | _ => ((1 : ℚ), cs)
  let sign := sp.1
  let cs1 := sp.2
  let ip := cs1.takeWhile Char.isDigit
  if ip = [] then none
  else if 1 < ip.length ∧ ip.head? = some '0' then none
  else
    let r1 := cs1.dropWhile Char.isDigit
    let fr := match r1 with
      | '.' :: t =>
        let fd := t.takeWhile Char.isDigit
        if fd = [] then none else some (fd, t.dropWhile Char.isDigit)
      | _ => some (([] : List Char), r1)
    match fr with
    | none => none
    | some (fracPart, r2) =>
      let m := sign * mantissaVal ip fracPart
      match r2 with
      | e :: t =>
        if e = 'e' ∨ e = 'E' then
          let esp := match t with
            | '-' :: u => ((-1 : ℚ), u)
            | '+' :: u => ((1 : ℚ), u)
            | _ => ((1 : ℚ), t)
          let eds := esp.2.takeWhile Char.isDigit
          if eds = [] then none
          else some (applyExp m esp.1 eds, esp.2.dropWhile Char.isDigit)
        else some (m, r2)
      | [] => some (m, [])

/-- Parser mode: a value, the members of an object being read, or the
elements of an array being read. -/
inductive PMode where
  | value : PMode
  | members : List (String × JsonValue) → PMode
  | elements : List JsonValue → PMode

/-- Fueled recursive-descent JSON parser. -/
def parseJ : ℕ → PMode → List Char → Option (JsonValue × List Char)
  | 0, _, _ => none
  | f + 1, PMode.value, cs =>
    match cs.dropWhile isJsonWs with
    | [] => none
    | c :: t =>
      if c = '{' then
        match t.dropWhile isJsonWs with
        | '}' :: t2 => some (JsonValue.obj [], t2)
        | _ => parseJ f (PMode.members []) t
      else if c = '[' then
        match t.dropWhile isJsonWs with
        | ']' :: t2 => some (JsonValue.arr [], t2)
        | _ => parseJ f (PMode.elements []) t
      else if c = '"' then
        (parseJsonString f t).map (fun r => (JsonValue.str (String.mk r.1), r.2))
      else if c = 't' then
        if t.take 3 = "rue".data then some (JsonValue.bool true, t.drop 3) else none
      else if c = 'f' then
        if t.take 4 = "alse".data then some (JsonValue.bool false, t.drop 4) else none
      else if c = 'n' then
        if t.take 3 = "ull".data then some (JsonValue.null, t.drop 3) else none
      else
        (parseJsonNumber (c :: t)).map (fun r => (JsonValue.num r.1, r.2))
  | f + 1, PMode.members acc, cs =>
    match cs.dropWhile isJsonWs with
    | '"' :: t =>
      match parseJsonString f t with
      | none => none
      | some (key, r1) =>
        match r1.dropWhile isJsonWs with
        | ':' :: r2 =>
          match parseJ f PMode.value r2 with
          | none => none
          | some (v, r3) =>
            let acc2 := insertField acc (String.mk key) v
            match r3.dropWhile isJsonWs with
            | ',' :: r4 => parseJ f (PMode.members acc2) r4
            | '}' :: r4 => some (JsonValue.obj acc2, r4)
            | _ => none
        | _ => none
    | _ => none
  | f + 1, PMode.elements acc, cs =>
    match parseJ f PMode.value cs with
    | none => none
    | some (v, r1) =>
      match r1.dropWhile isJsonWs with
      | ',' :: r2 => parseJ f (PMode.elements (acc ++ [v])) r2
      | ']' :: r2 => some (JsonValue.arr (acc ++ [v]), r2)
      | _ => none

/-- JSON.parse: none models the exception on invalid input. -/
def jsonParse (s : String) : Option JsonValue :=
  match parseJ (2 * s.length + 8) PMode.value s.data with
  | some (v, rest) => if rest.dropWhile isJsonWs = [] then some v else none
  | none => none

/-!
Number-to-string rendering for the String() coercion (exact for the
terminating decimals JSON literals denote), and a stable structural
sort standing for the stable Array.prototype.sort of the runtime.
-/

/-- Decimal expansion of a fraction in [0,1), up to a fuel bound (every
number that reaches this comes from a finite decimal literal). -/
def fracDigitsF : ℕ → ℚ → List Char
  | 0, _ => []
  | n + 1, r =>
    let r10 := r * 10
    let d := ⌊r10⌋
    let c := Char.ofNat (48 + d.toNat)
    if r10 - (d : ℚ) = 0 then [c] else c :: fracDigitsF n (r10 - (d : ℚ))

/-- JavaScript String() rendering of a finite number. -/
def numRepr (q : ℚ) : List Char :=
  let sign := if q < 0 then "-".data else []
  let a := |q|
  let fr := a - (⌊a⌋ : ℚ)
  sign ++ Nat.toDigits 10 (⌊a⌋).toNat ++ (if fr = 0 then [] else '.' :: fracDigitsF 20 fr)

/-- Join character lists with commas (Array.prototype.toString). -/
def joinWithComma : List (List Char) → List Char
  | [] => []
  | [x] => x
  | x :: t => x ++ ',' :: joinWithComma t

/-- Fueled String() coercion of a JSON value (arrays join their elements
with commas, null elements rendering empty; objects render as the
object tag). -/
def jsToStringF : ℕ → JsonValue → List Char
  | 0, _ => []
  | f + 1, v =>
    match v with
    | JsonValue.null => "null".data
    | JsonValue.bool true => "true".data
    | JsonValue.bool false => "false".data
    | JsonValue.num q => numRepr q
    | JsonValue.str s => s.data
    | JsonValue.arr xs =>
      joinWithComma (xs.map (fun x =>
        match x with
        | JsonValue.null => []
        | _ => jsToStringF f x))
    | JsonValue.obj _ => "[object Object]".data

/-- String() coercion of a JSON value. The fuel only limits the depth of
nested arrays being rendered; no property proved below depends on the
rendering of arrays nested beyond this bound, and values parsed from
transcript content are nested no deeper than their source text is long. -/
def jsToString (v : JsonValue) : List Char := jsToStringF 4096 v

/-- Stable insertion of an element into a sorted list: the new element
goes after every strictly smaller element and before equal ones already
present later in the traversal, matching a stable comparator sort. -/
def insertByLt {α : Type} (lt : α → α → Bool) (x : α) : List α → List α
  | [] => [x]
  | y :: ys => if lt y x then y :: insertByLt lt x ys else x :: y :: ys

/-- Stable sort by a strict comparison (models the stable
Array.prototype.sort with a numeric comparator). -/
def stableSortByLt {α : Type} (lt : α → α → Bool) (l : List α) : List α :=
  l.foldr (insertByLt lt) []

/-!
IndustryStandardVideoExtractor (src/server.js): robust timestamp
parsing, time parsing, video file resolution and the clip pipeline.
-/

namespace IndustryStandardVideoExtractor

/-- A parsed transcript timestamp entry. The source calls the third
field end, which is a reserved word here, so it is named stop. -/
structure TranscriptEntry where
  text : String
  start : JsNum
  stop : JsNum
  confidence : JsonValue

/-- The test of the regex anchored-digits pattern used by timeToSeconds
to recognise a pure decimal number (digits with an optional fraction). -/
def decRegexTest (cs : List Char) : Bool :=
  let ip := cs.takeWhile Char.isDigit
  let rest := cs.dropWhile Char.isDigit
  ip ≠ [] && (rest = [] ||
    (match rest with
     | '.' :: t => t ≠ [] && t.all Char.isDigit
     | _ => false))

/-- parseFloat(p || 0): an empty part is falsy and parses as 0. -/
def parsePartFloat (p : List Char) : JsNum :=
  if p = [] then JsNum.val 0 else jsParseFloatChars p

/-- parseInt(p || zero-string) with the default radix. -/
def parsePartInt (p : List Char) : JsNum :=
  if p = [] then JsNum.val 0 else jsParseIntChars p

/-- timeToSeconds from src/server.js (IndustryStandardVideoExtractor):
numbers clamp at 0; falsy values give 0; otherwise the String()
rendering is trimmed, a pure decimal string parses as seconds, a
colon-separated string decomposes positionally (seconds take the
rightmost group through parseFloat, the leading groups go through
parseInt), four or more groups give 0; the total clamps at 0 and a NaN
result becomes 0. -/
def timeToSeconds (v : JsonValue) : JsNum :=
  match v with
  | JsonValue.num q => JsNum.maxJ (JsNum.val 0) (JsNum.val q)
  | _ =>
    if !jsTruthy v then JsNum.val 0
    else
      let str := charTrim (jsToString v)
      if decRegexTest str then JsNum.maxJ (JsNum.val 0) (jsParseFloatChars str)
      else
        let parts := charSplit ':' str
        let seconds : JsNum :=
          match parts with
          | [p0] => parsePartFloat p0
          | [p0, p1] => JsNum.add (JsNum.mul (parsePartInt p0) (JsNum.val 60)) (parsePartFloat p1)
          | [p0, p1, p2] =>
            JsNum.add
              (JsNum.add (JsNum.mul (parsePartInt p0) (JsNum.val 3600))
                (JsNum.mul (parsePartInt p1) (JsNum.val 60)))
              (parsePartFloat p2)
          | _ => JsNum.val 0
        let result := JsNum.maxJ (JsNum.val 0) seconds
        if JsNum.isNaNB result then JsNum.val 0 else result

/-- Comparator order of the sort calls (ascending by start; the
comparator a.start - b.start never sees NaN from timeToSeconds). -/
def startLt (x y : TranscriptEntry) : Bool := JsNum.ltB x.start y.start

/-- The ascending stable sort applied before returning entries. -/
def sortEntries (l : List TranscriptEntry) : List TranscriptEntry :=
  stableSortByLt startLt l

/-- Confidence of a pushed entry: obj.confidence || 1.0. -/
def confVal (fields : List (String × JsonValue)) : JsonValue :=
  match getField fields "confidence" with
  | some c => if jsTruthy c then c else JsonValue.num 1
  | none => JsonValue.num 1

/-- The recursive walk of extractTimestampsFromObject over a work list of
values, threading the accumulated entries (pushed in place) and a flag
recording that the walk threw (obj.text.trim() on a truthy non-string
text throws a TypeError, which aborts the walk of the current chunk but
keeps the entries already pushed). Arrays walk their elements; an
object carrying truthy text, start and end fields is validated and
pushed (or rejected) without walking into it; any other object walks
its property values; primitives are skipped. The fuel decreases on
every step and is chosen large enough by the entry point. -/
def walkMany : ℕ → List JsonValue → List TranscriptEntry → List TranscriptEntry × Bool
  | 0, _, acc => (acc, false)
  | _ + 1, [], acc => (acc, false)
  | f + 1, v :: vs, acc =>
    match v with
    | JsonValue.arr xs =>
      let r := walkMany f xs acc
      if r.2 then r else walkMany f vs r.1
    | JsonValue.obj fields =>
      let t := getField fields "text"
      let s := getField fields "start"
      let e := getField fields "end"
      if truthyOpt t && truthyOpt s && truthyOpt e then
        let startTime := timeToSeconds (s.getD JsonValue.null)
        let endTime := timeToSeconds (e.getD JsonValue.null)
        if JsNum.leB (JsNum.val 0) startTime && JsNum.ltB startTime endTime then
          match t with
          | some (JsonValue.str ts) =>
            if charTrim ts.data ≠ [] then
              walkMany f vs (acc ++
                [TranscriptEntry.mk (String.mk (charTrim ts.data)) startTime endTime (confVal fields)])
            else walkMany f vs acc
          | _ => (acc, true)
        else walkMany f vs acc
      else
        let r := walkMany f (fields.map (fun p => p.2)) acc
        if r.2 then r else walkMany f vs r.1
    | _ => walkMany f vs acc

/-- Structural node-count bound used to fuel the walk of one value. -/
def jsonFuelF : ℕ → JsonValue → ℕ
  | 0, _ => 1
  | f + 1, v =>
    match v with
    | JsonValue.arr xs => 1 + (xs.map (fun x => jsonFuelF f x)).sum + xs.length
    | JsonValue.obj fs => 1 + (fs.map (fun p => jsonFuelF f p.2)).sum + fs.length
    | _ => 1

/-- extractTimestampsFromObject from src/server.js, on one parsed value
with an entry accumulator; the boolean records a thrown TypeError. -/
def extractTimestampsFromObject (v : JsonValue) (acc : List TranscriptEntry) :
    List TranscriptEntry × Bool :=
  walkMany (2 * jsonFuelF 4096 v + 2) [v] acc

/-- One pass of String.prototype.replace with a global string pattern:
non-overlapping occurrences are replaced left to right. -/
def replaceAllF : ℕ → List Char → List Char → List Char → List Char
  | 0, cs, _, _ => cs
  | f + 1, cs, pat, rep =>
    match cs with
    | [] => []
    | c :: t =>
      if pat ≠ [] && pat.isPrefixOf cs then rep ++ replaceAllF f (cs.drop pat.length) pat rep
      else c :: replaceAllF f t pat rep

/-- Global replacement of a literal pattern. -/
def replaceAll (cs pat rep : List Char) : List Char := replaceAllF cs.length cs pat rep

/-- Replacement of the first occurrence of a literal pattern
(String.prototype.replace with a string pattern). -/
def replaceFirstF : ℕ → List Char → List Char → List Char → List Char
  | 0, cs, _, _ => cs
  | f + 1, cs, pat, rep =>
    match cs with
    | [] => []
    | c :: t =>
      if pat ≠ [] && pat.isPrefixOf cs then rep ++ cs.drop pat.length
      else c :: replaceFirstF f t pat rep

/-- Replace the first occurrence of a literal pattern. -/
def replaceFirst (cs pat rep : List Char) : List Char := replaceFirstF cs.length cs pat rep

/-- Split the input at the first occurrence of a character, returning
the parts strictly before and after it. -/
def splitAtChar (target : Char) : List Char → Option (List Char × List Char)
  | [] => none
  | c :: t =>
    if c = target then some ([], t)
    else (splitAtChar target t).map (fun r => (c :: r.1, r.2))

/-- All matches of the lazy bracket-chunk regex of parseDirectJSON: at
each position, an opening square or curly bracket matches up to the
nearest closing bracket of the same kind (dot matches newlines under
the s flag), scanning resumes after the match, and a bracket with no
closing partner is skipped. -/
def findBracketChunksF : ℕ → List Char → List (List Char)
  | 0, _ => []
  | _ + 1, [] => []
  | f + 1, c :: t =>
    if c = '[' then
      match splitAtChar ']' t with
      | some (before, after) => ('[' :: (before ++ [']'])) :: findBracketChunksF f after
      | none => findBracketChunksF f t
    else if c = '{' then
      match splitAtChar '}' t with
      | some (before, after) => ('{' :: (before ++ ['}'])) :: findBracketChunksF f after
      | none => findBracketChunksF f t
    else findBracketChunksF f t

/-- parseDirectJSON from src/server.js: clean escape artifacts, collect
bracketed chunks, parse each as JSON, walk every parse into timestamp
entries (a chunk whose walk throws keeps its earlier pushes and is
abandoned), and sort ascending by start. -/
def parseDirectJSON (content : String) : List TranscriptEntry :=
  let cleaned :=
    replaceAll
      (replaceAll (replaceAll content.data ['\\', '"'] ['"']) ['\\', 'r', '\\', 'n'] [])
      ['\\', '\\'] ['\\']
  let chunks := findBracketChunksF (cleaned.length + 1) cleaned
  let ts := chunks.foldl (fun acc chunk =>
    match jsonParse (String.mk chunk) with
    | some v => (extractTimestampsFromObject v acc).1
    | none => acc) []
  sortEntries ts

/-- Split on the line-break regex of parseJSONStream (a line feed with an
optional preceding carriage return). -/
def splitLinesJs : List Char → List (List Char)
  | [] => [[]]
  | '\r' :: '\n' :: t => [] :: splitLinesJs t
  | '\n' :: t => [] :: splitLinesJs t
  | c :: t =>
    match splitLinesJs t with
    | [] => [[c]]
    | h :: t2 => (c :: h) :: t2

/-- Search for a literal key pattern followed by optional whitespace and
a non-empty quoted capture, the field regexes of extractFromPartialLine. -/
def tryQuotedAt (cs lit : List Char) : Option (List Char) :=
  if lit.isPrefixOf cs then
    match (cs.drop lit.length).dropWhile isWsChar with
    | '"' :: rest =>
      let cap := rest.takeWhile (fun c => c ≠ '"')
      if cap ≠ [] ∧ (rest.drop cap.length).head? = some '"' then some cap else none
    | _ => none
  else none

/-- First match of a quoted-field regex anywhere in the line. -/
def findQuotedAfterF : ℕ → List Char → List Char → Option (List Char)
  | 0, _, _ => none
  | _ + 1, [], _ => none
  | f + 1, cs, lit =>
    match tryQuotedAt cs lit with
    | some cap => some cap
    | none =>
      match cs with
      | [] => none
      | _ :: t => findQuotedAfterF f t lit

/-- extractFromPartialLine from src/server.js: last-resort field-level
regex extraction requiring all three quoted fields on the line; the
entry is pushed without any end-after-start validation. -/
def extractFromPartialLine (line : List Char) : List TranscriptEntry :=
  let fuel := line.length + 1
  match findQuotedAfterF fuel line "\"text\":".data,
      findQuotedAfterF fuel line "\"start\":".data,
      findQuotedAfterF fuel line "\"end\":".data with
  | some t, some s, some e =>
    [TranscriptEntry.mk (String.mk (charTrim t))
      (timeToSeconds (JsonValue.str (String.mk s)))
      (timeToSeconds (JsonValue.str (String.mk e)))
      (JsonValue.num (7 / 10))]
  | _, _, _ => []

/-- The per-line push of parseJSONStream once JSON.parse succeeded on the
cleaned line: an object with truthy text, start and end fields pushes an
entry with NO validation that end exceeds start; a truthy non-string
text makes obj.text.trim() throw, and property access on null throws,
both caught by the per-line catch that falls back to the partial-line
extraction; any other value fails the guard silently. -/
def streamPush (v : JsonValue) (trimmed : List Char) : List TranscriptEntry :=
  match v with
  | JsonValue.obj fields =>
    let t := getField fields "text"
    let s := getField fields "start"
    let e := getField fields "end"
    if truthyOpt t && truthyOpt s && truthyOpt e then
      match t with
      | some (JsonValue.str ts) =>
        [TranscriptEntry.mk (String.mk (charTrim ts.data))
          (timeToSeconds (s.getD JsonValue.null))
          (timeToSeconds (e.getD JsonValue.null))
          (confVal fields)]
      | _ => extractFromPartialLine trimmed
    else []
  | JsonValue.null => extractFromPartialLine trimmed
  | _ => []

/-- parseJSONStream from src/server.js: split into lines, skip lines
without a quoted text or start key, drop one trailing comma, parse the
line as JSON and push through the stream guard, falling back to
partial-line extraction when JSON.parse (or the push) throws; sort
ascending by start. -/
def parseJSONStream (content : String) : List TranscriptEntry :=
  let ts := (splitLinesJs content.data).foldl (fun acc line =>
    let trimmed := charTrim line
    if trimmed = [] then acc
    else if !containsSub trimmed "\"text\"".data && !containsSub trimmed "\"start\"".data then acc
    else
      let cleaned := if trimmed.getLast? = some ',' then trimmed.dropLast else trimmed
      match jsonParse (String.mk cleaned) with
      | some v => acc ++ streamPush v trimmed
      | none => acc ++ extractFromPartialLine trimmed) []
  sortEntries ts

/-- A quoted non-empty capture at the head of the input, returning the
capture and the remainder after its closing quote. -/
def matchQuoted (cs : List Char) : Option (List Char × List Char) :=
  match cs with
  | '"' :: rest =>
    let cap := rest.takeWhile (fun c => c ≠ '"')
    if cap ≠ [] ∧ (rest.drop cap.length).head? = some '"' then
      some (cap, rest.drop (cap.length + 1))
    else none
  | _ => none

/-- Attempt the three-field regex of parseWithValidation at the current
position: quoted text, comma, quoted start, comma, quoted end, with
optional whitespace after each key and comma. -/
def tryTripleAt (cs : List Char) : Option (List Char × List Char × List Char × List Char) :=
  if "\"text\":".data.isPrefixOf cs then
    match matchQuoted ((cs.drop 7).dropWhile isWsChar) with
    | some (cap1, r2) =>
      match r2 with
      | ',' :: r3 =>
        let r4 := r3.dropWhile isWsChar
        if "\"start\":".data.isPrefixOf r4 then
          match matchQuoted ((r4.drop 8).dropWhile isWsChar) with
          | some (cap2, r6) =>
            match r6 with
            | ',' :: r7 =>
              let r8 := r7.dropWhile isWsChar
              if "\"end\":".data.isPrefixOf r8 then
                match matchQuoted ((r8.drop 6).dropWhile isWsChar) with
                | some (cap3, r10) => some (cap1, cap2, cap3, r10)
                | none => none
              else none
            | _ => none
          | none => none
        else none
      | _ => none
    | none => none
  else none

/-- The exec loop of parseWithValidation: scan for matches of the
three-field regex, validating each candidate (non-negative start, end
after start, non-blank text) before pushing it with confidence 0.8. -/
def scanTriples : ℕ → List Char → List TranscriptEntry
  | 0, _ => []
  | _ + 1, [] => []
  | f + 1, cs =>
    match tryTripleAt cs with
    | some (c1, c2, c3, rest) =>
      let startTime := timeToSeconds (JsonValue.str (String.mk c2))
      let endTime := timeToSeconds (JsonValue.str (String.mk c3))
      (if JsNum.leB (JsNum.val 0) startTime && JsNum.ltB startTime endTime
          && charTrim c1 ≠ [] then
        [TranscriptEntry.mk (String.mk (charTrim c1)) startTime endTime (JsonValue.num (4 / 5))]
      else []) ++ scanTriples f rest
    | none =>
      match cs with
      | [] => []
      | _ :: t => scanTriples f t

/-- parseWithValidation from src/server.js: the global three-field regex
with per-match validation, sorted ascending by start. -/
def parseWithValidation (content : String) : List TranscriptEntry :=
  sortEntries (scanTriples (content.data.length + 1) content.data)

/-- parseTimestampsRobustly from src/server.js: direct JSON parsing,
then stream parsing, then the validated regex, first non-empty wins. -/
def parseTimestampsRobustly (content : String) : List TranscriptEntry :=
  let direct := parseDirectJSON content
  if direct.length > 0 then direct
  else
    let stream := parseJSONStream content
    if stream.length > 0 then stream
    else parseWithValidation content

/-- The video extensions recognised by the extractor. -/
def videoExtensions : List String := [".mp4", ".avi", ".mov", ".mkv", ".webm"]

/-- A directory entry counts as a video file when its lowered name ends
in one of the recognised extensions. -/
def isVideoFile (f : String) : Bool := videoExtensions.any (fun ext => lowerEndsWith f ext)

/-- findAllVideoFiles from src/server.js, over a given directory listing. -/
def findAllVideoFiles (dirFiles : List String) : List String := dirFiles.filter isVideoFile

/-- Strip one recognised video extension from the end of a file name,
case-insensitively (the replace of the anchored extension regex). -/
def stripVideoExt (f : String) : String :=
  if lowerEndsWith f ".webm" then String.mk (f.data.take (f.data.length - 5))
  else if lowerEndsWith f ".mp4" || lowerEndsWith f ".avi" || lowerEndsWith f ".mov"
      || lowerEndsWith f ".mkv" then String.mk (f.data.take (f.data.length - 4))
  else f

/-- findVideoFile from src/server.js (IndustryStandardVideoExtractor,
the fail-closed variant): take the basename of the storage URI, remove
one _sentences.json suffix, and return the first video file whose name
without its extension is exactly (case-sensitively) that string; none
otherwise. -/
def findVideoFile (s3Uri : String) (dirFiles : List String) : Option String :=
  if s3Uri = "" then none
  else
    let files := findAllVideoFiles dirFiles
    if files = [] then none
    else
      let uriParts := charSplit '/' s3Uri.data
      let s3Filename := replaceFirst (uriParts.getLast?.getD []) "_sentences.json".data []
      files.find? (fun file => (stripVideoExt file).data = s3Filename)

/-- Match the eight-digits underscore six-digits timestamp pattern at
the current position. -/
def tryTsAt (cs : List Char) : Bool :=
  (cs.take 8).length = 8 && (cs.take 8).all Char.isDigit
    && (cs.drop 8).take 1 = ['_']
    && ((cs.drop 9).take 6).length = 6 && ((cs.drop 9).take 6).all Char.isDigit

/-- First match of the timestamp pattern anywhere in the input,
returning the part before it, the fifteen matched characters and the
part after it. -/
def tsSplitF : ℕ → List Char → List Char → Option (List Char × List Char × List Char)
  | 0, _, _ => none
  | f + 1, cs, accRev =>
    if tryTsAt cs then some (accRev.reverse, cs.take 15, cs.drop 15)
    else
      match cs with
      | [] => none
      | c :: t => tsSplitF f t (c :: accRev)

/-- First timestamp-pattern match of a character list. -/
def tsSplit (cs : List Char) : Option (List Char × List Char × List Char) :=
  tsSplitF (cs.length + 1) cs []

/-- Case-insensitive literal prefix test (the literal is lowercase). -/
def lowerPrefix (cs : List Char) (lit : String) : Bool :=
  ((cs.take lit.length).map Char.toLower) = lit.data

/-- Match the case-insensitive Meeting-whitespace-(Recording or
Transcript) pattern at the current position, returning the match
length. -/
def tryMeetingAt (cs : List Char) : Option ℕ :=
  if lowerPrefix cs "meeting" then
    let r := cs.drop 7
    let wsN := (r.takeWhile isWsChar).length
    if wsN = 0 then none
    else
      let r2 := r.drop wsN
      if lowerPrefix r2 "recording" then some (7 + wsN + 9)
      else if lowerPrefix r2 "transcript" then some (7 + wsN + 10)
      else none
  else none

/-- Remove the first match of the Meeting pattern (the replace of the
display-name regex). -/
def meetingReplaceFirstF : ℕ → List Char → List Char
  | 0, cs => cs
  | f + 1, cs =>
    match tryMeetingAt cs with
    | some n => cs.drop n
    | none =>
      match cs with
      | [] => []
      | c :: t => c :: meetingReplaceFirstF f t

/-- Remove the first match of the Meeting pattern. -/
def meetingReplaceFirst (cs : List Char) : List Char := meetingReplaceFirstF (cs.length + 1) cs

/-- getVideoDisplayName from src/server.js: strip the extension, turn
hyphens and underscores into spaces, remove one timestamp pattern and
one Meeting pattern, and trim. -/
def getVideoDisplayName (filename : String) : String :=
  let s1 := (stripVideoExt filename).data
  let s2 := s1.map (fun c => if c = '-' ∨ c = '_' then ' ' else c)
  let s3 := match tsSplit s2 with
    | some (before, _, after) => before ++ after
    | none => s2
  let s4 := meetingReplaceFirst s3
  String.mk (charTrim s4)

/-- A curated clip as built by the extractor. Optional fields model
properties some construction sites leave absent; isFallback is only
ever set by the intelligent fallbacks. -/
structure Clip where
  title : String
  description : String
  videoPath : String
  startTime : ℚ
  endTime : ℚ
  transcript : Option String
  relevanceScore : ℚ
  qualityScore : Option ℚ
  keyTopics : Option (List String)
  sourceId : String
  aiGenerated : Bool
  reasoning : Option String
  originalDuration : Option ℚ
  optimizedDuration : Option ℚ
  isFallback : Bool
deriving DecidableEq

/-- One best-effort fallback clip of createIntelligentFallbacks: the
i-th available video receives the evenly spaced span starting at 45 i
seconds with length 60 and relevance 0.4 - 0.1 i, marked isFallback. -/
def mkFallbackClip (userQuery : String) (i : ℕ) (f : String) : Clip :=
  Clip.mk ("Relevant Content: " ++ getVideoDisplayName f)
    ("This segment may contain information related to: \"" ++ userQuery ++ "\"")
    ("/videos/" ++ f)
    ((i : ℚ) * 45) ((i : ℚ) * 45 + 60)
    none ((2 : ℚ) / 5 - (i : ℚ) / 10) none none f false none none none true

/-- createIntelligentFallbacks from src/server.js: one fallback clip for
each of the first two available video files. -/
def createIntelligentFallbacks (userQuery : String) (dirFiles : List String) : List Clip :=
  let videoFiles := findAllVideoFiles dirFiles
  ((videoFiles.take 2).enum).map (fun p => mkFallbackClip userQuery p.1 p.2)

/-- createSemanticClips from src/server.js, with the per-reference
processing (timestamp parsing, file resolution, segmentation and
LLM enhancement, all collaborator-dependent) abstracted as a function:
each reference is processed independently (in parallel in the source)
and the per-reference clip lists are concatenated in order. -/
def createSemanticClips {α : Type} (processRef : α → List Clip) (refs : List α) : List Clip :=
  (refs.map processRef).flatten

/-- extractRelevantClips from src/server.js, on its success path, with
the collaborator-dependent phases abstracted: references come
pre-extracted from the agent trace (hasTrace tells whether a trace was
present at all), processRef stands for the per-reference semantic
pipeline, and optimize for the LLM ranking phase which only runs on a
non-empty clip list when a Bedrock client exists. When no clips
survive, the intelligent fallbacks over the available video files are
returned. -/
def extractRelevantClips {α : Type} (hasTrace hasBedrock : Bool)
    (processRef : α → List Clip) (optimize : List Clip → List Clip)
    (references : List α) (userQuery : String) (dirFiles : List String) : List Clip :=
  let clips := if hasTrace then createSemanticClips processRef references else []
  let clips := if clips.length > 0 && hasBedrock then optimize clips else clips
  if clips.length = 0 then createIntelligentFallbacks userQuery dirFiles else clips

/-- The CLIP_CONFIG thresholds of src/server.js (line 44). -/
def MIN_LLM_SCORE : ℚ := 2 / 5

/-- Context buffer in seconds added around optimized clip bounds. -/
def CONTEXT_BUFFER : ℚ := 3

/-- Split on maximal runs of sentence-ending punctuation (the split
regex of generateFallbackTitle). -/
def splitOnRunsF (p : Char → Bool) : ℕ → List Char → List (List Char)
  | 0, _ => [[]]
  | _ + 1, [] => [[]]
  | f + 1, c :: t =>
    if p c then [] :: splitOnRunsF p f (t.dropWhile p)
    else
      match splitOnRunsF p f t with
      | [] => [[c]]
      | h :: t2 => (c :: h) :: t2

/-- Sentence-ending punctuation. -/
def isSentEnd (c : Char) : Bool := c = '.' || c = '!' || c = '?'

/-- generateFallbackTitle from src/server.js: the first sentence longer
than ten characters once trimmed, truncated at 60 characters with an
ellipsis, or the truncated text itself. -/
def generateFallbackTitle (text : String) : String :=
  let sentences := (splitOnRunsF isSentEnd (text.data.length + 1) text.data).filter
    (fun s => 10 < (charTrim s).length)
  match sentences with
  | s :: _ =>
    let st := charTrim s
    if 60 < st.length then String.mk (st.take 60 ++ "...".data) else String.mk st
  | [] => String.mk (text.data.take 60 ++ "...".data)

/-- generateFallbackDescription from src/server.js: the text truncated
at 200 characters with an ellipsis. -/
def generateFallbackDescription (text : String) : String :=
  if 200 < text.data.length then String.mk (text.data.take 200 ++ "...".data) else text

/-- A scored window handed to the LLM enhancement step (the segment
objects built by createSemanticSegments and createFallbackSegments). -/
structure ServerSegment where
  text : String
  startTime : ℚ
  endTime : ℚ
  similarity : ℚ

/-- The fixed-schema judgment returned by the LLM collaborator for one
window (fields of the JSON object the prompt requests). Optional
fields model properties the reply may omit. -/
structure Analysis where
  include_clip : Bool
  relevance_score : ℚ
  quality_score : ℚ
  title : Option String
  description : Option String
  key_topics : Option (List String)
  optimal_start_offset : ℚ
  optimal_end_offset : ℚ
  reasoning : Option String

/-- The JavaScript a || fallback idiom on an optional string (absent or
empty falls back). -/
def orStr (o : Option String) (d : String) : String :=
  match o with
  | some s => if s = "" then d else s
  | none => d

/-- The JavaScript a || fallback idiom on a finite number (zero falls
back). -/
def orQ (q d : ℚ) : ℚ := if q = 0 then d else q

/-- createValidClip from src/server.js: the clip built from the original
window bounds with the context buffer when offset optimization failed. -/
def createValidClip (segment : ServerSegment) (videoFile : String) (transcript : String)
    (analysis : Analysis) : Clip :=
  Clip.mk
    (orStr analysis.title (generateFallbackTitle transcript))
    (orStr analysis.description (generateFallbackDescription transcript))
    ("/videos/" ++ videoFile)
    (max 0 (segment.startTime - CONTEXT_BUFFER))
    (segment.endTime + CONTEXT_BUFFER)
    (some transcript)
    (orQ analysis.relevance_score (7 / 10))
    (some (orQ analysis.quality_score (7 / 10)))
    (some (analysis.key_topics.getD []))
    videoFile true (some "Used original timestamps due to optimization failure")
    none none false

/-- The judgment-handling logic of enhanceClipWithLLM from src/server.js
(the surrounding LLM call is the collaborator; this models what the
code does with the analysis it received): reject non-positive window
durations; accept only included judgments at or above the threshold;
clamp both trim offsets into the range keeping at least five seconds;
when the clamped offsets still invert the clip, fall back to
createValidClip on the original bounds; otherwise apply the context
buffer around the optimized bounds. -/
def enhanceClipDecision (segment : ServerSegment) (videoFile : String) (analysis : Analysis) :
    Option Clip :=
  let transcript := segment.text
  let duration := segment.endTime - segment.startTime
  if duration ≤ 0 then none
  else if analysis.include_clip ∧ MIN_LLM_SCORE ≤ analysis.relevance_score then
    let rawStartOffset := max 0 analysis.optimal_start_offset
    let rawEndOffset := max 0 analysis.optimal_end_offset
    let maxOffset := max 0 (duration - 5)
    let startOffset := min rawStartOffset maxOffset
    let endOffset := min rawEndOffset maxOffset
    let optimizedStart := segment.startTime + startOffset
    let optimizedEnd := segment.endTime - endOffset
    if optimizedEnd ≤ optimizedStart then some (createValidClip segment videoFile transcript analysis)
    else
      let finalStart := max 0 (optimizedStart - CONTEXT_BUFFER)
      let finalEnd := optimizedEnd + CONTEXT_BUFFER
      some (Clip.mk
        (orStr analysis.title (generateFallbackTitle transcript))
        (orStr analysis.description (generateFallbackDescription transcript))
        ("/videos/" ++ videoFile)
        finalStart finalEnd (some transcript)
        analysis.relevance_score (some analysis.quality_score)
        (some (analysis.key_topics.getD []))
        videoFile true analysis.reasoning
        (some duration) (some (finalEnd - finalStart)) false)
  else none

end IndustryStandardVideoExtractor

/-!
VideoClipExtractor (src/server.js, the second server variant in the
same file, line 3575): the resolver that never fails closed.
-/

namespace VideoClipExtractor

/-- Wrap an integer into the signed 32-bit range (the ToInt32 conversion
of the bitwise operators). -/
def toInt32 (n : ℤ) : ℤ :=
  let r := n % 4294967296
  if 2147483648 ≤ r then r - 4294967296 else r

/-- One step of simpleHash: hash shifted left five bits (as a 32-bit
integer), minus the hash, plus the character code, coerced back to 32
bits by the final bitwise and. -/
def simpleHashStep (h : ℤ) (c : ℕ) : ℤ :=
  toInt32 (toInt32 (toInt32 h * 32) - h + (c : ℤ))

/-- simpleHash from src/server.js over the code units of the string
(adequate for the ASCII URIs it is applied to). -/
def simpleHash (s : String) : ℤ :=
  s.data.foldl (fun h c => simpleHashStep h c.toNat) 0

/-- Match the bracket-class, timestamp, Meeting pattern of the
VideoClipExtractor base-name regex at the current position, returning
the match length. -/
def tryVceMeetingAt (cs : List Char) : Option ℕ :=
  match cs with
  | c :: t =>
    if (c = '-' ∨ c = '_') && IndustryStandardVideoExtractor.tryTsAt t
        && ((t.drop 15).take 1 = ['-']) then
      match IndustryStandardVideoExtractor.tryMeetingAt (t.drop 16) with
      | some n => some (1 + 15 + 1 + n)
      | none => none
    else none
  | [] => none

/-- Remove the first match of the VideoClipExtractor Meeting pattern. -/
def vceMeetingReplaceFirstF : ℕ → List Char → List Char
  | 0, cs => cs
  | f + 1, cs =>
    match tryVceMeetingAt cs with
    | some n => cs.drop n
    | none =>
      match cs with
      | [] => []
      | c :: t => c :: vceMeetingReplaceFirstF f t

/-- Remove the first match of the VideoClipExtractor Meeting pattern. -/
def vceMeetingReplaceFirst (cs : List Char) : List Char :=
  vceMeetingReplaceFirstF (cs.length + 1) cs

/-- findVideoFile from src/server.js (VideoClipExtractor variant): an
embedded timestamp pattern is matched against the file names first;
otherwise the basename is stripped of its transcript suffixes and the
Meeting pattern, lowered and trimmed, and matched by two-way
containment; when nothing matches, the URI is ASSIGNED a file anyway by
hashing it over the available files (never none once video files
exist). -/
def findVideoFile (s3Uri : String) (dirFiles : List String) : Option String :=
  if s3Uri = "" then none
  else
    let files := IndustryStandardVideoExtractor.findAllVideoFiles dirFiles
    if files = [] then none
    else
      let ts := IndustryStandardVideoExtractor.tsSplit s3Uri.data
      let exactMatch := match ts with
        | some (_, m, _) => files.find? (fun f => containsSub f.data m)
        | none => none
      match exactMatch with
      | some m => some m
      | none =>
        let s3FileName := (charSplit '/' s3Uri.data).getLast?.getD []
        let baseName := charTrim ((vceMeetingReplaceFirst
          (IndustryStandardVideoExtractor.replaceFirst
            (IndustryStandardVideoExtractor.replaceFirst s3FileName "_sentences.json".data [])
            ".json".data [])).map Char.toLower)
        let partialMatch :=
          if baseName ≠ [] then
            files.find? (fun f =>
              let fileBaseName := charTrim ((vceMeetingReplaceFirst
                (IndustryStandardVideoExtractor.stripVideoExt f).data).map Char.toLower)
              containsSub fileBaseName baseName || containsSub baseName fileBaseName)
          else none
        match partialMatch with
        | some m => some m
        | none => files.get? ((simpleHash s3Uri).natAbs % files.length)

end VideoClipExtractor

/-- The resolver contract exactly as the specification words it
(section 4.2): strip the known suffixes _sentences, _transcript and
_timestamped and the extension from the basename of the storage
identifier, compare case-insensitively against each candidate treated
the same way, accept when either string contains the other, and return
none when no candidate matches. Stated here only to compare the
described contract against the two implementations above. -/
def specResolve (storageUri : String) (availableFiles : List String) : Option String :=
  let stripExtAtEnd := fun (cs : List Char) =>
    match (cs.reverse.findIdx? (fun c => c = '.')) with
    | some k => cs.take (cs.length - k - 1)
    | none => cs
  let stripSuffixOnce := fun (cs : List Char) (suf : String) =>
    if suf.data.reverse.isPrefixOf cs.reverse then cs.take (cs.length - suf.length) else cs
  let canonical := fun (name : List Char) =>
    let b := stripExtAtEnd name
    let b := stripSuffixOnce b "_sentences"
    let b := stripSuffixOnce b "_transcript"
    let b := stripSuffixOnce b "_timestamped"
    b.map Char.toLower
  let base := canonical ((charSplit '/' storageUri.data).getLast?.getD [])
  availableFiles.find? (fun f =>
    let fb := canonical f.data
    containsSub fb base || containsSub base fb)

/-!
Theorems. Helper lemmas come first, then one theorem per claim (with a
counterexample and a witness where required).
-/

/-- Membership through the stable insertion. -/
theorem mem_insertByLt {α : Type} (lt : α → α → Bool) (a x : α) :
    ∀ l : List α, x ∈ insertByLt lt a l ↔ x = a ∨ x ∈ l := by
  intro l
  induction l with
  | nil => simp [insertByLt]
  | cons y ys ih =>
    by_cases h : lt y a
    · simp only [insertByLt, h, if_true, List.mem_cons, ih]
      tauto
    · simp only [insertByLt, h, if_false, Bool.false_eq_true, List.mem_cons]

/-- Membership through the stable sort. -/
theorem mem_stableSortByLt {α : Type} (lt : α → α → Bool) (x : α) :
    ∀ l : List α, x ∈ stableSortByLt lt l ↔ x ∈ l := by
  intro l
  induction l with
  | nil => simp [stableSortByLt]
  | cons y ys ih =>
    simp only [stableSortByLt, List.foldr_cons] at ih ⊢
    rw [mem_insertByLt, ih]
    simp

namespace IndustryStandardVideoExtractor

/-- Membership through sortEntries. -/
theorem mem_sortEntries (x : TranscriptEntry) (l : List TranscriptEntry) :
    x ∈ sortEntries l ↔ x ∈ l := mem_stableSortByLt startLt x l

end IndustryStandardVideoExtractor

/-- C9 counterexample: with a successfully probed duration of 1 second
and the timestamp 1 (at the duration, so the adjustment path is taken),
extractFrame seeks the transcoder at exactly 1 - the original timestamp
passed through unchanged - and the effective timestamp is not below the
probed duration, contradicting the claim. -/
theorem extractFrameSeek_cex :
    FrameExtractor.extractFrameSeek 1 1 = 1 ∧ ¬(FrameExtractor.extractFrameSeek 1 1 < 1) := by
  constructor
  · simp [FrameExtractor.extractFrameSeek]
  · simp [FrameExtractor.extractFrameSeek]

/-- C9 (amended): whenever the probed duration exceeds 1 second, a
timestamp at or past the duration is replaced by an effective seek
position strictly between 0 and the duration, different from the
original timestamp. -/
theorem extractFrameSeek_props (t d : ℚ) (hd : 1 < d) (ht : d ≤ t) :
    0 < FrameExtractor.extractFrameSeek t d ∧ FrameExtractor.extractFrameSeek t d < d
      ∧ FrameExtractor.extractFrameSeek t d ≠ t := by
  have h0 : FrameExtractor.extractFrameSeek t d = max 1 (max 0 (d - 5)) := by
    simp [FrameExtractor.extractFrameSeek, ht]
  have hlt : max 1 (max 0 (d - 5)) < d := by
    apply max_lt hd
    apply max_lt (by linarith)
    linarith
  refine ⟨?_, ?_, ?_⟩
  · rw [h0]; positivity
  · rw [h0]; exact hlt
  · rw [h0]; intro hEq; rw [hEq] at hlt; linarith

/-- C9 witness: the amended statement at timestamp 5 and duration 2. -/
theorem extractFrameSeek_props_witness :
    0 < FrameExtractor.extractFrameSeek 5 2 ∧ FrameExtractor.extractFrameSeek 5 2 < 2
      ∧ FrameExtractor.extractFrameSeek 5 2 ≠ 5 :=
  extractFrameSeek_props 5 2 (by norm_num) (by norm_num)

/-- The accumulated dot product is symmetric. -/
theorem dotProd_comm (a : List ℚ) : ∀ b : List ℚ, dotProd a b = dotProd b a := by
  induction a with
  | nil => intro b; cases b <;> simp [dotProd]
  | cons x xs ih =>
    intro b
    cases b with
    | nil => simp [dotProd]
    | cons y ys =>
      simp only [dotProd, List.zipWith_cons_cons, List.sum_cons]
      have h := ih ys
      simp only [dotProd] at h
      rw [h, mul_comm]

/-- C4 counterexample: on two empty vectors the lengths agree, the norms
are zero, and cosineSimilarity performs the division 0/0, returning NaN
rather than the exact 0 the claim requires. -/
theorem cosineSimilarity_empty_nan_cex :
    cosineSimilarity ([] : List ℚ) [] = CosResult.nan ∧
      CosResult.isZeroValue (cosineSimilarity ([] : List ℚ) []) = false := by
  constructor <;> with_unfolding_all decide

/-- C4 (amended): cosineSimilarity is symmetric and returns exactly 0 on
mismatched lengths; but on equal-length vectors whose norm product is
zero (in particular two empty vectors) the division is 0/0 and the
result is NaN, not 0. -/
theorem cosineSimilarity_props (a b : List ℚ) :
    cosineSimilarity a b = cosineSimilarity b a
      ∧ (a.length ≠ b.length → cosineSimilarity a b = CosResult.num 0)
      ∧ (a.length = b.length → normSq a * normSq b = 0 → cosineSimilarity a b = CosResult.nan) := by
  refine ⟨?_, ?_, ?_⟩
  · by_cases h : a.length = b.length
    · simp only [cosineSimilarity, h, ne_eq, not_true_eq_false, if_false]
      rw [dotProd_comm, mul_comm (normSq a) (normSq b)]
    · have h2 : b.length ≠ a.length := fun e => h e.symm
      simp [cosineSimilarity, h, h2]
  · intro h
    simp [cosineSimilarity, h]
  · intro hl hp
    simp [cosineSimilarity, hl, hp]

/-- C4 witness: the amended statement applied to a mismatched pair. -/
theorem cosineSimilarity_props_witness :
    cosineSimilarity [(1 : ℚ)] [] = CosResult.num 0 :=
  (cosineSimilarity_props [(1 : ℚ)] []).2.1 (by decide)

/-- C6 counterexample: with numeric raw timestamps 0 and 10 and a probed
duration of 2 seconds, normalizeTimes returns the span 0 to 3, whose
end lies past duration - 2 = 0 and even past the 2-second duration
itself, so extraction runs past end-of-file; and with the malformed
colon string a:b as raw start the result propagates NaN. -/
theorem normalizeTimes_small_duration_cex :
    VideoGenerator.normalizeTimes (VideoGenerator.RawTs.num (JsNum.val 0))
        (VideoGenerator.RawTs.num (JsNum.val 10)) (JsNum.val 2) = (JsNum.val 0, JsNum.val 3)
      ∧ ¬((3 : ℚ) ≤ 2 - 2) ∧ (2 : ℚ) < 3
      ∧ VideoGenerator.normalizeTimes (VideoGenerator.RawTs.str "a:b")
        (VideoGenerator.RawTs.num (JsNum.val 10)) (JsNum.val 100) = (JsNum.nan, JsNum.nan) := by
  refine ⟨?_, by norm_num, by norm_num, ?_⟩ <;> with_unfolding_all decide

/-- C6 (amended): whenever both raw timestamps normalize to finite
numbers (numeric inputs always do; only malformed colon strings
propagate NaN or an infinity) and the probed duration is at least 5
seconds, normalizeTimes returns validated finite seconds with start at
least 0, end at least start + 3, and end clamped at or below the
2-second trailing buffer before the duration; and millisecond-epoch
magnitudes (beyond 1e12) are replaced by the safe default of 30
seconds. For durations below 5 seconds the final clamp violates the
buffer (see the counterexample). -/
theorem normalizeTimes_props :
    (∀ (rs re : VideoGenerator.RawTs) (d : ℚ), 5 ≤ d →
      (∃ q, VideoGenerator.normalizeTimestamp rs = JsNum.val q) →
      (∃ q, VideoGenerator.normalizeTimestamp re = JsNum.val q) →
      ∃ qs qe : ℚ, VideoGenerator.normalizeTimes rs re (JsNum.val d) = (JsNum.val qs, JsNum.val qe)
        ∧ 0 ≤ qs ∧ qs + 3 ≤ qe ∧ qe ≤ d - 2)
    ∧ (∀ q : ℚ, 1000000000000 < q →
      VideoGenerator.normalizeTimestamp (VideoGenerator.RawTs.num (JsNum.val q)) = JsNum.val 30) := by
  constructor
  · rintro rs re d hd ⟨a, ha⟩ ⟨b, hb⟩
    have hd0 : (0 : ℚ) < d := by linarith
    simp only [VideoGenerator.normalizeTimes, ha, hb, JsNum.leB_val, JsNum.ltB_val,
      JsNum.add_val, JsNum.sub_val, JsNum.maxJ_val, JsNum.minJ_val, JsNum.isFiniteB_val,
      Bool.true_and, decide_eq_true hd0, if_true]
    split_ifs <;>
      (simp only [JsNum.sub_val, JsNum.add_val, JsNum.maxJ_val, JsNum.minJ_val];
        exact ⟨_, _, rfl, le_max_left _ _, le_max_left _ _,
          max_le (le_trans (add_le_add_right (max_le (by linarith) (min_le_right _ _)) 3)
            (by linarith)) (min_le_right _ _)⟩)
  · intro q hq
    simp only [VideoGenerator.normalizeTimestamp, VideoGenerator.normalizeNum, JsNum.orZero_val,
      JsNum.ltB_val, decide_eq_true hq, if_true]

/-- C6 witness: the amended statement at numeric raw timestamps 0 and 10
with probed duration 100. -/
theorem normalizeTimes_props_witness :
    ∃ qs qe : ℚ, VideoGenerator.normalizeTimes (VideoGenerator.RawTs.num (JsNum.val 0))
        (VideoGenerator.RawTs.num (JsNum.val 10)) (JsNum.val 100) = (JsNum.val qs, JsNum.val qe)
      ∧ 0 ≤ qs ∧ qs + 3 ≤ qe ∧ qe ≤ 100 - 2 :=
  normalizeTimes_props.1 _ _ 100 (by norm_num)
    ⟨0, by with_unfolding_all decide⟩ ⟨10, by with_unfolding_all decide⟩

/-- C5 (code defect): generateVideo computes deduplicateSegments but its
processing loop iterates over the ORIGINAL segments array, so two
near-duplicate content segments (same video, same rounded times, same
text, differing only in scores and sub-rounding offsets) BOTH reach the
assembled output, while the computed-and-discarded deduplication keeps
exactly one of them - the higher-scored first segment - as the claim
describes. -/
theorem generateVideo_skips_dedup :
    VideoGenerator.generateVideoContents true
      [VideoGenerator.Segment.mk "content" (some "/videos/a.mp4") (some "hello") (51 / 5) (201 / 5)
        (some (9 / 10)) (some (4 / 5)) (some "T") none none none,
       VideoGenerator.Segment.mk "content" (some "/videos/a.mp4") (some "hello") (52 / 5) (202 / 5)
        (some (1 / 2)) (some (1 / 2)) (some "T") none none none] =
      [VideoGenerator.Segment.mk "content" (some "/videos/a.mp4") (some "hello") (51 / 5) (201 / 5)
        (some (9 / 10)) (some (4 / 5)) (some "T") none none none,
       VideoGenerator.Segment.mk "content" (some "/videos/a.mp4") (some "hello") (52 / 5) (202 / 5)
        (some (1 / 2)) (some (1 / 2)) (some "T") none none none] ∧
    VideoGenerator.deduplicateSegments
      [VideoGenerator.Segment.mk "content" (some "/videos/a.mp4") (some "hello") (51 / 5) (201 / 5)
        (some (9 / 10)) (some (4 / 5)) (some "T") none none none,
       VideoGenerator.Segment.mk "content" (some "/videos/a.mp4") (some "hello") (52 / 5) (202 / 5)
        (some (1 / 2)) (some (1 / 2)) (some "T") none none none] =
      [VideoGenerator.Segment.mk "content" (some "/videos/a.mp4") (some "hello") (51 / 5) (201 / 5)
        (some (9 / 10)) (some (4 / 5)) (some "T") none none none] := by
  constructor <;> with_unfolding_all decide

/-- C3: on a window of duration 10 seconds (with the non-negative start
every parsed window has) and an LLM judgment proposing both trim
offsets as 8 with inclusion and a passing relevance score, the offsets
are clamped to 5 = duration - 5 each, the optimized bounds collide, and
the Curator falls back to createValidClip on the original window with
the context buffer: the produced Clip spans at least 5 seconds and its
end is strictly after its start. -/
theorem curator_clamp_duration10 (txt : String) (st en sim : ℚ) (vf : String)
    (a : IndustryStandardVideoExtractor.Analysis) (hdur : en - st = 10) (hst : 0 ≤ st)
    (hinc : a.include_clip = true)
    (hrel : IndustryStandardVideoExtractor.MIN_LLM_SCORE ≤ a.relevance_score)
    (hso : a.optimal_start_offset = 8) (heo : a.optimal_end_offset = 8) :
    ∃ c : IndustryStandardVideoExtractor.Clip,
      IndustryStandardVideoExtractor.enhanceClipDecision
          (IndustryStandardVideoExtractor.ServerSegment.mk txt st en sim) vf a = some c
        ∧ 5 ≤ c.endTime - c.startTime ∧ c.startTime < c.endTime := by
  have h10 : ¬((en - st : ℚ) ≤ 0) := by rw [hdur]; norm_num
  have hoff : en - min (max 0 a.optimal_end_offset) (max 0 (en - st - 5))
      ≤ st + min (max 0 a.optimal_start_offset) (max 0 (en - st - 5)) := by
    rw [hso, heo, hdur]
    norm_num
    linarith
  simp only [IndustryStandardVideoExtractor.enhanceClipDecision, h10, if_false, hinc, hrel,
    true_and, if_pos hrel]
  simp only [if_true, if_pos hoff]
  have hb : max 0 (st - 3) ≤ st := max_le hst (by linarith)
  refine ⟨_, rfl, ?_, ?_⟩ <;>
    (simp only [IndustryStandardVideoExtractor.createValidClip,
      IndustryStandardVideoExtractor.CONTEXT_BUFFER]; linarith [hb])

/-- C3 witness: the statement at the window from 0 to 10 seconds and a
judgment with offsets 8, relevance 0.5. -/
theorem curator_clamp_duration10_witness :
    ∃ c : IndustryStandardVideoExtractor.Clip,
      IndustryStandardVideoExtractor.enhanceClipDecision
          (IndustryStandardVideoExtractor.ServerSegment.mk "t" 0 10 0) "a.mp4"
          (IndustryStandardVideoExtractor.Analysis.mk true (1 / 2) (1 / 2) (some "T") (some "D")
            none 8 8 none) = some c
        ∧ 5 ≤ c.endTime - c.startTime ∧ c.startTime < c.endTime :=
  curator_clamp_duration10 "t" 0 10 0 "a.mp4" _ (by norm_num) le_rfl rfl
    (by norm_num [IndustryStandardVideoExtractor.MIN_LLM_SCORE]) rfl rfl

/-- C1: with zero retrieved references, no clips survive the semantic and
optimization phases whatever the collaborators do, so extractRelevantClips
returns the intelligent fallbacks, which are non-empty as soon as at
least one video file is present in the directory and carry
isFallback = true on every element. -/
theorem extractRelevantClips_zero_refs {α : Type} (hasTrace hasBedrock : Bool)
    (processRef : α → List IndustryStandardVideoExtractor.Clip)
    (optimize : List IndustryStandardVideoExtractor.Clip →
      List IndustryStandardVideoExtractor.Clip) (userQuery : String)
    (dirFiles : List String)
    (h : IndustryStandardVideoExtractor.findAllVideoFiles dirFiles ≠ []) :
    IndustryStandardVideoExtractor.extractRelevantClips hasTrace hasBedrock processRef optimize
        ([] : List α) userQuery dirFiles ≠ []
      ∧ ∀ c ∈ IndustryStandardVideoExtractor.extractRelevantClips hasTrace hasBedrock processRef
          optimize ([] : List α) userQuery dirFiles, c.isFallback = true := by
  have h0 : IndustryStandardVideoExtractor.extractRelevantClips hasTrace hasBedrock processRef
      optimize ([] : List α) userQuery dirFiles =
      IndustryStandardVideoExtractor.createIntelligentFallbacks userQuery dirFiles := by
    unfold IndustryStandardVideoExtractor.extractRelevantClips
      IndustryStandardVideoExtractor.createSemanticClips
    cases hasTrace <;> simp
  rw [h0]
  unfold IndustryStandardVideoExtractor.createIntelligentFallbacks
  constructor
  · intro hEmpty
    apply h
    rw [List.map_eq_nil_iff] at hEmpty
    have h1 := List.enum_eq_nil.mp hEmpty
    rcases List.take_eq_nil_iff.mp h1 with h2 | h2
    · exact absurd h2 (by norm_num)
    · exact h2
  · intro c hc
    rw [List.mem_map] at hc
    obtain ⟨p, _, rfl⟩ := hc
    rfl

/-- C1 witness: a single video file in the directory, a trace and a
Bedrock client present, the reference processor and optimizer
arbitrary. -/
theorem extractRelevantClips_zero_refs_witness :
    IndustryStandardVideoExtractor.extractRelevantClips true true
        (fun _ : Unit => []) id ([] : List Unit) "q" ["a.mp4"] ≠ []
      ∧ ∀ c ∈ IndustryStandardVideoExtractor.extractRelevantClips true true
          (fun _ : Unit => []) id ([] : List Unit) "q" ["a.mp4"], c.isFallback = true :=
  extractRelevantClips_zero_refs true true (fun _ : Unit => []) id "q" ["a.mp4"]
    (by with_unfolding_all decide)

set_option maxRecDepth 2000000 in
/-- C7 counterexample: neither resolver implements the described policy.
The first (fail-closed) resolver compares case-SENSITIVELY and strips
only the literal _sentences.json, so it returns none on Intro vs intro
although the described policy (specResolve) accepts; and the second
resolver, where no candidate matches structurally, still returns a file
chosen by hashing the URI, although the described policy returns none. -/
theorem findVideoFile_policy_cex :
    IndustryStandardVideoExtractor.findVideoFile "Intro_sentences.json" ["intro.mp4"] = none ∧
      specResolve "Intro_sentences.json" ["intro.mp4"] = some "intro.mp4" ∧
      VideoClipExtractor.findVideoFile "s3://b/zzz_sentences.json" ["intro.mp4"]
        = some "intro.mp4" ∧
      specResolve "s3://b/zzz_sentences.json" ["intro.mp4"] = none := by
  refine ⟨?_, ?_, ?_, ?_⟩ <;> with_unfolding_all decide

/-- C7 (amended): the fail-closed resolver only ever answers with a video
file whose extension-stripped name is exactly (case-sensitively) the
URI basename with one _sentences.json suffix removed, and returns none
otherwise; the VideoClipExtractor resolver never fails closed - as soon
as the URI is non-empty and any video file exists it returns some file,
falling back to a hash-based assignment when nothing matches. -/
theorem resolvers_props :
    (∀ (uri : String) (dirFiles : List String),
      IndustryStandardVideoExtractor.findVideoFile uri dirFiles = none
      ∨ ∃ f, IndustryStandardVideoExtractor.findVideoFile uri dirFiles = some f
          ∧ f ∈ dirFiles
          ∧ (IndustryStandardVideoExtractor.stripVideoExt f).data
            = IndustryStandardVideoExtractor.replaceFirst
                ((charSplit '/' uri.data).getLast?.getD []) "_sentences.json".data [])
    ∧ (∀ (uri : String) (dirFiles : List String), uri ≠ "" →
      IndustryStandardVideoExtractor.findAllVideoFiles dirFiles ≠ [] →
      ∃ f, VideoClipExtractor.findVideoFile uri dirFiles = some f
        ∧ f ∈ IndustryStandardVideoExtractor.findAllVideoFiles dirFiles) := by
  constructor
  · intro uri dirFiles
    unfold IndustryStandardVideoExtractor.findVideoFile
    by_cases h1 : uri = ""
    · left; simp [h1]
    · rw [if_neg h1]
      by_cases h2 : IndustryStandardVideoExtractor.findAllVideoFiles dirFiles = []
      · left; rw [if_pos h2]
      · rw [if_neg h2]
        cases hfind : (IndustryStandardVideoExtractor.findAllVideoFiles dirFiles).find?
            (fun file => decide ((IndustryStandardVideoExtractor.stripVideoExt file).data
              = IndustryStandardVideoExtractor.replaceFirst
                ((charSplit '/' uri.data).getLast?.getD []) "_sentences.json".data [])) with
        | none => left; rfl
        | some f =>
          right
          refine ⟨f, rfl, ?_, ?_⟩
          · exact List.mem_of_mem_filter (List.mem_of_find?_eq_some hfind)
          · have hp := List.find?_some hfind
            simp only [decide_eq_true_eq] at hp
            exact hp
  · intro uri dirFiles h1 h2
    unfold VideoClipExtractor.findVideoFile
    rw [if_neg h1, if_neg h2]
    have hlen : 0 < (IndustryStandardVideoExtractor.findAllVideoFiles dirFiles).length :=
      List.length_pos.mpr h2
    have hhash : ∀ k : ℕ, ∃ f, (IndustryStandardVideoExtractor.findAllVideoFiles dirFiles).get?
        (k % (IndustryStandardVideoExtractor.findAllVideoFiles dirFiles).length) = some f
        ∧ f ∈ IndustryStandardVideoExtractor.findAllVideoFiles dirFiles := by
      intro k
      have hidx : k % (IndustryStandardVideoExtractor.findAllVideoFiles dirFiles).length
          < (IndustryStandardVideoExtractor.findAllVideoFiles dirFiles).length :=
        Nat.mod_lt _ hlen
      exact ⟨_, List.get?_eq_get hidx, List.get_mem _ _ _⟩
    dsimp only
    split
    · rename_i g heq
      refine ⟨g, rfl, ?_⟩
      rcases hts : IndustryStandardVideoExtractor.tsSplit uri.data with _ | ⟨b, m, a⟩
      · rw [hts] at heq
        cases heq
      · rw [hts] at heq
        exact List.mem_of_find?_eq_some heq
    · split
      · rename_i g heq2
        refine ⟨g, rfl, ?_⟩
        split at heq2
        · exact List.mem_of_find?_eq_some heq2
        · cases heq2
      · exact hhash _

/-- C7 witness: the never-fail-closed resolver applied to a URI with no
structural match over one available file. -/
theorem resolvers_props_witness :
    ∃ f, VideoClipExtractor.findVideoFile "s3://b/other.json" ["clip.mp4"] = some f
      ∧ f ∈ IndustryStandardVideoExtractor.findAllVideoFiles ["clip.mp4"] :=
  resolvers_props.2 "s3://b/other.json" ["clip.mp4"] (by decide)
    (by with_unfolding_all decide)

theorem not_ws_of_digit {c : Char} (h : c.isDigit = true) : isWsChar c = false := by
  simp only [isWsChar, Bool.or_eq_false_iff]
  refine ⟨⟨⟨⟨⟨?_, ?_⟩, ?_⟩, ?_⟩, ?_⟩, ?_⟩ <;>
    (simp only [decide_eq_false_iff_not]; rintro rfl; exact absurd h (by decide))

theorem ne_of_digit {c d : Char} (h : c.isDigit = true) (hd : d.isDigit = false) : c ≠ d := by
  rintro rfl
  rw [h] at hd
  cases hd

theorem takeWhile_all {α : Type} (p : α → Bool) :
    ∀ cs : List α, (∀ c ∈ cs, p c = true) → cs.takeWhile p = cs := by
  intro cs h
  induction cs with
  | nil => rfl
  | cons c t ih =>
    rw [List.takeWhile_cons, h c (List.mem_cons_self c t)]
    simp only [if_true]
    rw [ih (fun x hx => h x (List.mem_cons_of_mem c hx))]

theorem dropWhile_all {α : Type} (p : α → Bool) :
    ∀ cs : List α, (∀ c ∈ cs, p c = true) → cs.dropWhile p = [] := by
  intro cs h
  induction cs with
  | nil => rfl
  | cons c t ih =>
    rw [List.dropWhile_cons, h c (List.mem_cons_self c t)]
    simp only [if_true]
    exact ih (fun x hx => h x (List.mem_cons_of_mem c hx))

theorem dropWhile_head_false {α : Type} (p : α → Bool) (c : α) (t : List α)
    (h : p c = false) : (c :: t).dropWhile p = c :: t := by
  rw [List.dropWhile_cons, h]
  simp

theorem takeWhile_append_stop {α : Type} (p : α → Bool) (y : α) (ys : List α) (hy : p y = false) :
    ∀ xs : List α, (∀ c ∈ xs, p c = true) → (xs ++ y :: ys).takeWhile p = xs := by
  intro xs hx
  induction xs with
  | nil => simp [List.takeWhile_cons, hy]
  | cons c t ih =>
    rw [List.cons_append, List.takeWhile_cons, hx c (List.mem_cons_self c t)]
    simp only [if_true]
    rw [ih (fun x h2 => hx x (List.mem_cons_of_mem c h2))]

theorem dropWhile_append_stop {α : Type} (p : α → Bool) (y : α) (ys : List α) (hy : p y = false) :
    ∀ xs : List α, (∀ c ∈ xs, p c = true) → (xs ++ y :: ys).dropWhile p = y :: ys := by
  intro xs hx
  induction xs with
  | nil => simp [List.dropWhile_cons, hy]
  | cons c t ih =>
    rw [List.cons_append, List.dropWhile_cons, hx c (List.mem_cons_self c t)]
    simp only [if_true]
    exact ih (fun x h2 => hx x (List.mem_cons_of_mem c h2))

theorem dropWhile_all_false {α : Type} (p : α → Bool) :
    ∀ cs : List α, (∀ c ∈ cs, p c = false) → cs.dropWhile p = cs := by
  intro cs h
  cases cs with
  | nil => rfl
  | cons c t => exact dropWhile_head_false p c t (h c (List.mem_cons_self c t))

theorem charTrim_eq_self (cs : List Char) (h : ∀ c ∈ cs, isWsChar c = false) :
    charTrim cs = cs := by
  unfold charTrim
  rw [dropWhile_all_false isWsChar cs h]
  rw [dropWhile_all_false isWsChar cs.reverse (fun c hc => h c (List.mem_reverse.mp hc))]
  exact List.reverse_reverse cs

theorem charSplit_no_sep (sep : Char) :
    ∀ cs : List Char, (∀ c ∈ cs, c ≠ sep) → charSplit sep cs = [cs] := by
  intro cs h
  induction cs with
  | nil => rfl
  | cons c t ih =>
    rw [charSplit, if_neg (h c (List.mem_cons_self c t))]
    rw [ih (fun x hx => h x (List.mem_cons_of_mem c hx))]

theorem charSplit_append (sep : Char) (ys : List Char) :
    ∀ xs : List Char, (∀ c ∈ xs, c ≠ sep) →
      charSplit sep (xs ++ sep :: ys) = xs :: charSplit sep ys := by
  intro xs h
  induction xs with
  | nil => simp [charSplit]
  | cons c t ih =>
    rw [List.cons_append, charSplit, if_neg (h c (List.mem_cons_self c t))]
    rw [ih (fun x hx => h x (List.mem_cons_of_mem c hx))]

theorem splitSign_not_sign (c : Char) (t : List Char) (h : c.isDigit = true) :
    splitSign (c :: t) = (1, c :: t) := by
  rw [splitSign, if_neg (ne_of_digit h (by decide)), if_neg (ne_of_digit h (by decide))]

theorem take_ne_Infinity (c : Char) (t : List Char) (h : c.isDigit = true) :
    ((c :: t).take 8 = "Infinity".data) = False := by
  simp only [eq_iff_iff, iff_false]
  intro hEq
  rw [List.take_succ_cons] at hEq
  have : c = 'I' := (List.cons.injEq _ _ _ _).mp hEq |>.1
  rw [this] at h
  exact absurd h (by decide)

theorem jsParseIntChars_digits (ds : List Char) (h1 : ds ≠ [])
    (h2 : ∀ c ∈ ds, c.isDigit = true) :
    jsParseIntChars ds = JsNum.val (digitsToNat ds) := by
  obtain ⟨c, t, rfl⟩ := List.exists_cons_of_ne_nil h1
  have hc := h2 c (List.mem_cons_self c t)
  simp only [jsParseIntChars]
  rw [dropWhile_head_false isWsChar c t (not_ws_of_digit hc), splitSign_not_sign c t hc]
  simp only [takeWhile_all Char.isDigit (c :: t) h2]
  rw [if_neg h1]
  norm_num

theorem jsParseFloatChars_digits (ds : List Char) (h1 : ds ≠ [])
    (h2 : ∀ c ∈ ds, c.isDigit = true) :
    jsParseFloatChars ds = JsNum.val (digitsToNat ds) := by
  obtain ⟨c, t, rfl⟩ := List.exists_cons_of_ne_nil h1
  have hc := h2 c (List.mem_cons_self c t)
  simp only [jsParseFloatChars]
  rw [dropWhile_head_false isWsChar c t (not_ws_of_digit hc), splitSign_not_sign c t hc]
  simp only [take_ne_Infinity c t hc, if_false]
  simp only [takeWhile_all Char.isDigit (c :: t) h2, dropWhile_all Char.isDigit (c :: t) h2]
  rw [if_neg (by simp [h1])]
  simp [mantissaVal, digitsToNat]

theorem jsToString_str (s : String) : jsToString (JsonValue.str s) = s.data := rfl

theorem decRegexTest_colon (ds1 ds2 : List Char) (h2 : ∀ c ∈ ds1, c.isDigit = true) :
    IndustryStandardVideoExtractor.decRegexTest (ds1 ++ ':' :: ds2) = false := by
  simp only [IndustryStandardVideoExtractor.decRegexTest]
  rw [takeWhile_append_stop Char.isDigit ':' ds2 (by decide) ds1 h2,
      dropWhile_append_stop Char.isDigit ':' ds2 (by decide) ds1 h2]
  simp

theorem timeToSeconds_mmss (ds1 ds2 : List Char) (h1 : ds1 ≠ []) (h2 : ds2 ≠ [])
    (hd1 : ∀ c ∈ ds1, c.isDigit = true) (hd2 : ∀ c ∈ ds2, c.isDigit = true) :
    IndustryStandardVideoExtractor.timeToSeconds (JsonValue.str (String.mk (ds1 ++ ':' :: ds2)))
      = JsNum.val ((digitsToNat ds1 : ℚ) * 60 + (digitsToNat ds2 : ℚ)) := by
  have hne : (ds1 ++ ':' :: ds2) ≠ [] := by simp
  have hsne : String.mk (ds1 ++ ':' :: ds2) ≠ "" := by
    intro hEq
    exact hne (congrArg String.data hEq)
  have hnws : ∀ c ∈ ds1 ++ ':' :: ds2, isWsChar c = false := by
    intro c hc
    rcases List.mem_append.mp hc with h | h
    · exact not_ws_of_digit (hd1 c h)
    · rcases List.mem_cons.mp h with rfl | h
      · decide
      · exact not_ws_of_digit (hd2 c h)
  simp only [IndustryStandardVideoExtractor.timeToSeconds, jsTruthy,
    decide_eq_true hsne, Bool.not_true, Bool.false_eq_true, if_false,
    jsToString_str]
  rw [charTrim_eq_self _ hnws]
  rw [decRegexTest_colon ds1 ds2 hd1]
  simp only [Bool.false_eq_true, if_false]
  have hc1 : ∀ c ∈ ds1, c ≠ ':' := fun c hc => ne_of_digit (hd1 c hc) (by decide)
  have hc2 : ∀ c ∈ ds2, c ≠ ':' := fun c hc => ne_of_digit (hd2 c hc) (by decide)
  rw [charSplit_append ':' ds2 ds1 hc1, charSplit_no_sep ':' ds2 hc2]
  simp only [IndustryStandardVideoExtractor.parsePartInt,
    IndustryStandardVideoExtractor.parsePartFloat, if_neg h1, if_neg h2,
    jsParseIntChars_digits ds1 h1 hd1, jsParseFloatChars_digits ds2 h2 hd2,
    JsNum.mul_val, JsNum.add_val, JsNum.maxJ_val]
  have hpos : (0 : ℚ) ≤ (digitsToNat ds1 : ℚ) * 60 + (digitsToNat ds2 : ℚ) := by positivity
  rw [max_eq_right hpos]
  simp

theorem timeToSeconds_hhmmss (ds1 ds2 ds3 : List Char) (h1 : ds1 ≠ []) (h2 : ds2 ≠ [])
    (h3 : ds3 ≠ []) (hd1 : ∀ c ∈ ds1, c.isDigit = true) (hd2 : ∀ c ∈ ds2, c.isDigit = true)
    (hd3 : ∀ c ∈ ds3, c.isDigit = true) :
    IndustryStandardVideoExtractor.timeToSeconds
        (JsonValue.str (String.mk (ds1 ++ ':' :: (ds2 ++ ':' :: ds3))))
      = JsNum.val ((digitsToNat ds1 : ℚ) * 3600 + (digitsToNat ds2 : ℚ) * 60
          + (digitsToNat ds3 : ℚ)) := by
  have hne : (ds1 ++ ':' :: (ds2 ++ ':' :: ds3)) ≠ [] := by simp
  have hsne : String.mk (ds1 ++ ':' :: (ds2 ++ ':' :: ds3)) ≠ "" := by
    intro hEq
    exact hne (congrArg String.data hEq)
  have hnws : ∀ c ∈ ds1 ++ ':' :: (ds2 ++ ':' :: ds3), isWsChar c = false := by
    intro c hc
    rcases List.mem_append.mp hc with h | h
    · exact not_ws_of_digit (hd1 c h)
    · rcases List.mem_cons.mp h with rfl | h
      · decide
      · rcases List.mem_append.mp h with h | h
        · exact not_ws_of_digit (hd2 c h)
        · rcases List.mem_cons.mp h with rfl | h
          · decide
          · exact not_ws_of_digit (hd3 c h)
  simp only [IndustryStandardVideoExtractor.timeToSeconds, jsTruthy,
    decide_eq_true hsne, Bool.not_true, Bool.false_eq_true, if_false, jsToString_str]
  rw [charTrim_eq_self _ hnws]
  rw [decRegexTest_colon ds1 (ds2 ++ ':' :: ds3) hd1]
  simp only [Bool.false_eq_true, if_false]
  have hc1 : ∀ c ∈ ds1, c ≠ ':' := fun c hc => ne_of_digit (hd1 c hc) (by decide)
  have hc2 : ∀ c ∈ ds2, c ≠ ':' := fun c hc => ne_of_digit (hd2 c hc) (by decide)
  have hc3 : ∀ c ∈ ds3, c ≠ ':' := fun c hc => ne_of_digit (hd3 c hc) (by decide)
  rw [charSplit_append ':' (ds2 ++ ':' :: ds3) ds1 hc1, charSplit_append ':' ds3 ds2 hc2,
    charSplit_no_sep ':' ds3 hc3]
  simp only [IndustryStandardVideoExtractor.parsePartInt,
    IndustryStandardVideoExtractor.parsePartFloat, if_neg h1, if_neg h2, if_neg h3,
    jsParseIntChars_digits ds1 h1 hd1, jsParseIntChars_digits ds2 h2 hd2,
    jsParseFloatChars_digits ds3 h3 hd3,
    JsNum.mul_val, JsNum.add_val, JsNum.maxJ_val]
  have hpos : (0 : ℚ) ≤ (digitsToNat ds1 : ℚ) * 3600 + ((digitsToNat ds2 : ℚ) * 60
      + (digitsToNat ds3 : ℚ)) := by positivity
  rw [max_eq_right (by linarith)]
  simp only [JsNum.isNaNB_val, Bool.false_eq_true, if_false]

theorem maxJ0_clamp_nonneg (n : JsNum) :
    JsNum.IsNonneg (if ((JsNum.val 0).maxJ n).isNaNB = true then JsNum.val 0
      else (JsNum.val 0).maxJ n) := by
  cases n with
  | nan => simp [JsNum.maxJ, JsNum.isNaNB, JsNum.IsNonneg]
  | posInf => simp [JsNum.maxJ, JsNum.ltB, JsNum.isNaNB, JsNum.IsNonneg]
  | negInf => simp [JsNum.maxJ, JsNum.ltB, JsNum.isNaNB, JsNum.IsNonneg]
  | val q =>
    rw [JsNum.maxJ_val]
    simp only [JsNum.isNaNB_val, Bool.false_eq_true, if_false]
    exact le_max_left 0 q

theorem jsParseFloatChars_digits_frac (ip t : List Char) (h1 : ip ≠ [])
    (hd1 : ∀ c ∈ ip, c.isDigit = true) (hd2 : ∀ c ∈ t, c.isDigit = true) :
    jsParseFloatChars (ip ++ '.' :: t) = JsNum.val (mantissaVal ip t) := by
  obtain ⟨c, t0, rfl⟩ := List.exists_cons_of_ne_nil h1
  have hc := hd1 c (List.mem_cons_self c t0)
  simp only [jsParseFloatChars]
  rw [List.cons_append,
    dropWhile_head_false isWsChar c (t0 ++ '.' :: t) (not_ws_of_digit hc),
    splitSign_not_sign c (t0 ++ '.' :: t) hc]
  simp only [take_ne_Infinity c (t0 ++ '.' :: t) hc, if_false]
  rw [← List.cons_append,
    takeWhile_append_stop Char.isDigit '.' t (by decide) (c :: t0) hd1,
    dropWhile_append_stop Char.isDigit '.' t (by decide) (c :: t0) hd1]
  simp only [takeWhile_all Char.isDigit t hd2, dropWhile_all Char.isDigit t hd2]
  rw [if_neg (by simp)]
  simp

theorem jsParseFloatChars_of_decRegex (cs : List Char)
    (h : IndustryStandardVideoExtractor.decRegexTest cs = true) :
    ∃ q : ℚ, 0 ≤ q ∧ jsParseFloatChars cs = JsNum.val q := by
  simp only [IndustryStandardVideoExtractor.decRegexTest, Bool.and_eq_true, Bool.or_eq_true,
    decide_eq_true_eq] at h
  obtain ⟨hip, hrest⟩ := h
  have hipd : ∀ c ∈ cs.takeWhile Char.isDigit, c.isDigit = true :=
    fun c hc => List.mem_takeWhile_imp hc
  have hcseq := (List.takeWhile_append_dropWhile (p := Char.isDigit) (l := cs))
  rcases hrest with hr | hr
  · have hdrop : cs.dropWhile Char.isDigit = [] := hr
    have hcs : cs.takeWhile Char.isDigit = cs := by
      conv_rhs => rw [← hcseq]
      rw [hdrop, List.append_nil]
    have hall : ∀ c ∈ cs, c.isDigit = true := by
      intro c hc
      exact hipd c (by rw [hcs]; exact hc)
    have hne : cs ≠ [] := by
      intro h0
      apply hip
      rw [h0]
      rfl
    exact ⟨(digitsToNat cs : ℚ), by positivity, jsParseFloatChars_digits cs hne hall⟩
  · split at hr
    · rename_i t heq
      simp only [Bool.and_eq_true, decide_eq_true_eq] at hr
      have hcs : cs = cs.takeWhile Char.isDigit ++ '.' :: t := by
        conv_lhs => rw [← hcseq]
        rw [heq]
      refine ⟨mantissaVal (cs.takeWhile Char.isDigit) t, ?_, ?_⟩
      · unfold mantissaVal
        positivity
      · conv_lhs => rw [hcs]
        exact jsParseFloatChars_digits_frac _ t hip hipd
          (fun c hc => List.all_eq_true.mp hr.2 c hc)
    · cases hr

theorem timeToSeconds_nonneg (v : JsonValue) :
    JsNum.IsNonneg (IndustryStandardVideoExtractor.timeToSeconds v) := by
  cases v with
  | num q =>
    simp only [IndustryStandardVideoExtractor.timeToSeconds, JsNum.maxJ_val]
    exact le_max_left 0 q
  | null =>
    simp only [IndustryStandardVideoExtractor.timeToSeconds]
    split
    · exact le_refl (0 : ℚ)
    · split
      · rename_i hregex
        obtain ⟨q, hq, heq⟩ := jsParseFloatChars_of_decRegex _ hregex
        rw [heq, JsNum.maxJ_val]
        exact le_max_left 0 q
      · exact maxJ0_clamp_nonneg _
  | bool b =>
    simp only [IndustryStandardVideoExtractor.timeToSeconds]
    split
    · exact le_refl (0 : ℚ)
    · split
      · rename_i hregex
        obtain ⟨q, hq, heq⟩ := jsParseFloatChars_of_decRegex _ hregex
        rw [heq, JsNum.maxJ_val]
        exact le_max_left 0 q
      · exact maxJ0_clamp_nonneg _
  | str s =>
    simp only [IndustryStandardVideoExtractor.timeToSeconds]
    split
    · exact le_refl (0 : ℚ)
    · split
      · rename_i hregex
        obtain ⟨q, hq, heq⟩ := jsParseFloatChars_of_decRegex _ hregex
        rw [heq, JsNum.maxJ_val]
        exact le_max_left 0 q
      · exact maxJ0_clamp_nonneg _
  | arr xs =>
    simp only [IndustryStandardVideoExtractor.timeToSeconds]
    split
    · exact le_refl (0 : ℚ)
    · split
      · rename_i hregex
        obtain ⟨q, hq, heq⟩ := jsParseFloatChars_of_decRegex _ hregex
        rw [heq, JsNum.maxJ_val]
        exact le_max_left 0 q
      · exact maxJ0_clamp_nonneg _
  | obj fields =>
    simp only [IndustryStandardVideoExtractor.timeToSeconds]
    split
    · exact le_refl (0 : ℚ)
    · split
      · rename_i hregex
        obtain ⟨q, hq, heq⟩ := jsParseFloatChars_of_decRegex _ hregex
        rw [heq, JsNum.maxJ_val]
        exact le_max_left 0 q
      · exact maxJ0_clamp_nonneg _

/-- C8 counterexample: the colon string 5:-60 is not a valid MM:SS time,
yet timeToSeconds returns 5*60 + (-60) = 240 clamped at 0, not the 0
the claim requires for malformed or negative strings. -/
theorem timeToSeconds_malformed_cex :
    IndustryStandardVideoExtractor.timeToSeconds (JsonValue.str "5:-60") = JsNum.val 240
      ∧ (240 : ℚ) ≠ 0 := by
  constructor
  · with_unfolding_all decide
  · norm_num

/-- C8 (amended): for every valid MM:SS digit string the result is
minutes*60 + seconds and for every valid HH:MM:SS digit string it is
hours*3600 + minutes*60 + seconds; the function is total (never throws)
and never returns a negative or NaN value on ANY input - but a
malformed colon string whose positional sum is positive returns that
clamped sum rather than 0 (see the counterexample). -/
theorem timeToSeconds_props :
    (∀ ds1 ds2 : List Char, ds1 ≠ [] → ds2 ≠ [] → (∀ c ∈ ds1, c.isDigit = true) →
      (∀ c ∈ ds2, c.isDigit = true) →
      IndustryStandardVideoExtractor.timeToSeconds
          (JsonValue.str (String.mk (ds1 ++ ':' :: ds2)))
        = JsNum.val ((digitsToNat ds1 : ℚ) * 60 + (digitsToNat ds2 : ℚ)))
    ∧ (∀ ds1 ds2 ds3 : List Char, ds1 ≠ [] → ds2 ≠ [] → ds3 ≠ [] →
      (∀ c ∈ ds1, c.isDigit = true) → (∀ c ∈ ds2, c.isDigit = true) →
      (∀ c ∈ ds3, c.isDigit = true) →
      IndustryStandardVideoExtractor.timeToSeconds
          (JsonValue.str (String.mk (ds1 ++ ':' :: (ds2 ++ ':' :: ds3))))
        = JsNum.val ((digitsToNat ds1 : ℚ) * 3600 + (digitsToNat ds2 : ℚ) * 60
            + (digitsToNat ds3 : ℚ)))
    ∧ (∀ v : JsonValue, JsNum.IsNonneg (IndustryStandardVideoExtractor.timeToSeconds v)) :=
  ⟨timeToSeconds_mmss, timeToSeconds_hhmmss, timeToSeconds_nonneg⟩

/-- C8 witness: the MM:SS clause at the digit string 12:34. -/
theorem timeToSeconds_props_witness :
    IndustryStandardVideoExtractor.timeToSeconds
        (JsonValue.str (String.mk (['1', '2'] ++ ':' :: ['3', '4'])))
      = JsNum.val ((digitsToNat ['1', '2'] : ℚ) * 60 + (digitsToNat ['3', '4'] : ℚ)) :=
  timeToSeconds_props.1 ['1', '2'] ['3', '4'] (by decide) (by decide)
    (by decide) (by decide)

namespace IndustryStandardVideoExtractor

theorem walkMany_nil (f : ℕ) (acc : List TranscriptEntry) : walkMany f [] acc = (acc, false) := by
  cases f <;> rfl

theorem walkMany_leaves : ∀ (f : ℕ) (vs : List JsonValue) (acc : List TranscriptEntry),
    (∀ v ∈ vs, (∀ xs, v ≠ JsonValue.arr xs) ∧ (∀ fs, v ≠ JsonValue.obj fs)) →
    walkMany f vs acc = (acc, false) := by
  intro f
  induction f with
  | zero => intro vs acc _; rfl
  | succ f ih =>
    intro vs acc h
    cases vs with
    | nil => rfl
    | cons v t =>
      have hv := h v (List.mem_cons_self v t)
      have ht : ∀ x ∈ t, (∀ xs, x ≠ JsonValue.arr xs) ∧ (∀ fs, x ≠ JsonValue.obj fs) :=
        fun x hx => h x (List.mem_cons_of_mem v hx)
      cases v with
      | arr xs => exact absurd rfl (hv.1 xs)
      | obj fs => exact absurd rfl (hv.2 fs)
      | null => exact ih t acc ht
      | bool b => exact ih t acc ht
      | num q => exact ih t acc ht
      | str s => exact ih t acc ht

end IndustryStandardVideoExtractor

/-- C10: a JSON object with non-empty text, numeric start exactly 0 and
positive end is dropped by both the structured-extraction walker (which
recurses into the property values instead, finding only primitives) and
the stream-parser push guard, because the truthiness test on the start
field treats the number 0 as absent. -/
theorem zero_start_dropped (t : String) (e : ℚ) (ht : t ≠ "") (he : 0 < e) :
    (∀ (f : ℕ) (acc : List IndustryStandardVideoExtractor.TranscriptEntry),
      IndustryStandardVideoExtractor.walkMany f
        [JsonValue.obj [("text", JsonValue.str t), ("start", JsonValue.num 0),
          ("end", JsonValue.num e)]] acc = (acc, false))
    ∧ (∀ line : List Char,
      IndustryStandardVideoExtractor.streamPush
        (JsonValue.obj [("text", JsonValue.str t), ("start", JsonValue.num 0),
          ("end", JsonValue.num e)]) line = []) := by
  have hguard : truthyOpt (getField [("text", JsonValue.str t), ("start", JsonValue.num 0),
      ("end", JsonValue.num e)] "start") = false := by
    simp [getField, truthyOpt, jsTruthy]
  constructor
  · intro f acc
    cases f with
    | zero => rfl
    | succ f =>
      simp only [IndustryStandardVideoExtractor.walkMany, hguard, Bool.and_false, Bool.false_and,
        Bool.false_eq_true, if_false]
      rw [IndustryStandardVideoExtractor.walkMany_leaves f _ acc ?_]
      · simp only [if_false]
        exact IndustryStandardVideoExtractor.walkMany_nil f acc
      · intro v hv
        simp only [List.map_cons, List.map_nil, List.mem_cons, List.not_mem_nil,
          or_false] at hv
        rcases hv with rfl | rfl | rfl
        · exact ⟨fun xs h => JsonValue.noConfusion h, fun fs h => JsonValue.noConfusion h⟩
        · exact ⟨fun xs h => JsonValue.noConfusion h, fun fs h => JsonValue.noConfusion h⟩
        · exact ⟨fun xs h => JsonValue.noConfusion h, fun fs h => JsonValue.noConfusion h⟩
  · intro line
    simp only [IndustryStandardVideoExtractor.streamPush, hguard, Bool.and_false, Bool.false_and,
      Bool.false_eq_true, if_false]

/-- C10 witness: the statement at text a, end 5, fuel 9, an empty
accumulator and a one-character line. -/
theorem zero_start_dropped_witness :
    IndustryStandardVideoExtractor.walkMany 9
        [JsonValue.obj [("text", JsonValue.str "a"), ("start", JsonValue.num 0),
          ("end", JsonValue.num 5)]] [] = ([], false)
      ∧ IndustryStandardVideoExtractor.streamPush
        (JsonValue.obj [("text", JsonValue.str "a"), ("start", JsonValue.num 0),
          ("end", JsonValue.num 5)]) "x".data = [] :=
  ⟨(zero_start_dropped "a" 5 (by decide) (by norm_num)).1 9 [],
   (zero_start_dropped "a" 5 (by decide) (by norm_num)).2 "x".data⟩

namespace IndustryStandardVideoExtractor

theorem walkMany_mem : ∀ (f : ℕ) (vs : List JsonValue) (acc : List TranscriptEntry)
    (e : TranscriptEntry), e ∈ (walkMany f vs acc).1 → e ∈ acc ∨
      (JsNum.ltB e.start e.stop = true ∧ JsNum.IsNonneg e.start ∧ JsNum.IsNonneg e.stop) := by
  intro f
  induction f with
  | zero => intro vs acc e he; exact Or.inl he
  | succ f ih =>
    intro vs acc e he
    cases vs with
    | nil => exact Or.inl he
    | cons v t =>
      cases v with
      | arr xs =>
        simp only [walkMany] at he
        split at he
        · exact ih xs acc e he
        · rcases ih t _ e he with h | h
          · exact ih xs acc e h
          · exact Or.inr h
      | obj fields =>
        simp only [walkMany] at he
        split at he
        · -- guard true
          split at he
          · -- numeric checks true
            split at he
            · -- text is a string
              rename_i ts heq
              split at he
              · -- trimmed text non-empty: an entry was pushed
                rcases ih t _ e he with h | h
                · rcases List.mem_append.mp h with h2 | h2
                  · exact Or.inl h2
                  · right
                    rw [List.mem_singleton.mp h2]
                    have hnum2 : (JsNum.leB (JsNum.val 0)
                        (timeToSeconds ((getField fields "start").getD JsonValue.null))
                        && JsNum.ltB (timeToSeconds ((getField fields "start").getD JsonValue.null))
                          (timeToSeconds ((getField fields "end").getD JsonValue.null))) = true := by
                      assumption
                    simp only [Bool.and_eq_true] at hnum2
                    exact ⟨hnum2.2, timeToSeconds_nonneg _, timeToSeconds_nonneg _⟩
                · exact Or.inr h
              · exact ih t acc e he
            · -- text truthy but not a string: the walk threw, keeping acc
              exact Or.inl he
          · exact ih t acc e he
        · -- guard false: walk the property values and continue
          split at he
          · exact ih (fields.map (fun p => p.2)) acc e he
          · rcases ih t _ e he with h | h
            · exact ih (fields.map (fun p => p.2)) acc e h
            · exact Or.inr h
      | null => exact ih t acc e (by simpa [walkMany] using he)
      | bool b => exact ih t acc e (by simpa [walkMany] using he)
      | num q => exact ih t acc e (by simpa [walkMany] using he)
      | str s => exact ih t acc e (by simpa [walkMany] using he)

end IndustryStandardVideoExtractor

namespace IndustryStandardVideoExtractor

theorem parseDirectJSON_good (content : String) :
    ∀ e ∈ parseDirectJSON content,
      JsNum.ltB e.start e.stop = true ∧ JsNum.IsNonneg e.start ∧ JsNum.IsNonneg e.stop := by
  intro e he
  unfold parseDirectJSON at he
  rw [mem_sortEntries] at he
  revert he
  have hfold : ∀ (chunks : List (List Char)) (acc : List TranscriptEntry),
      (∀ x ∈ acc, JsNum.ltB x.start x.stop = true ∧ JsNum.IsNonneg x.start
        ∧ JsNum.IsNonneg x.stop) →
      ∀ x ∈ chunks.foldl (fun acc chunk =>
          match jsonParse (String.mk chunk) with
          | some v => (extractTimestampsFromObject v acc).1
          | none => acc) acc,
        JsNum.ltB x.start x.stop = true ∧ JsNum.IsNonneg x.start ∧ JsNum.IsNonneg x.stop := by
    intro chunks
    induction chunks with
    | nil => intro acc hacc x hx; exact hacc x hx
    | cons c t ihc =>
      intro acc hacc x hx
      rw [List.foldl_cons] at hx
      refine ihc _ ?_ x hx
      intro y hy
      rcases hp : jsonParse (String.mk c) with _ | v
      · rw [hp] at hy
        exact hacc y hy
      · rw [hp] at hy
        rcases walkMany_mem _ _ _ y hy with h | h
        · exact hacc y h
        · exact h
  exact fun he => hfold _ [] (by intro x hx; cases hx) e he

theorem extractFromPartialLine_nonneg (line : List Char) :
    ∀ e ∈ extractFromPartialLine line, JsNum.IsNonneg e.start ∧ JsNum.IsNonneg e.stop := by
  intro e he
  unfold extractFromPartialLine at he
  dsimp only at he
  split at he
  · rename_i ct cs2 ce h1 h2 h3
    rw [List.mem_singleton.mp he]
    exact ⟨timeToSeconds_nonneg (JsonValue.str (String.mk cs2)),
      timeToSeconds_nonneg (JsonValue.str (String.mk ce))⟩
  · cases he

theorem streamPush_nonneg (v : JsonValue) (line : List Char) :
    ∀ e ∈ streamPush v line, JsNum.IsNonneg e.start ∧ JsNum.IsNonneg e.stop := by
  intro e he
  cases v with
  | obj fields =>
    simp only [streamPush] at he
    split at he
    · split at he
      · rw [List.mem_singleton.mp he]
        exact ⟨timeToSeconds_nonneg _, timeToSeconds_nonneg _⟩
      · exact extractFromPartialLine_nonneg line e he
    · cases he
  | null => exact extractFromPartialLine_nonneg line e (by simpa [streamPush] using he)
  | bool b => simp [streamPush] at he
  | num q => simp [streamPush] at he
  | str s => simp [streamPush] at he
  | arr xs => simp [streamPush] at he

theorem parseJSONStream_nonneg (content : String) :
    ∀ e ∈ parseJSONStream content, JsNum.IsNonneg e.start ∧ JsNum.IsNonneg e.stop := by
  intro e he
  unfold parseJSONStream at he
  rw [mem_sortEntries] at he
  revert he
  have hfold : ∀ (lines : List (List Char)) (acc : List TranscriptEntry),
      (∀ x ∈ acc, JsNum.IsNonneg x.start ∧ JsNum.IsNonneg x.stop) →
      ∀ x ∈ lines.foldl (fun acc line =>
          let trimmed := charTrim line
          if trimmed = [] then acc
          else if !containsSub trimmed "\"text\"".data
              && !containsSub trimmed "\"start\"".data then acc
          else
            let cleaned := if trimmed.getLast? = some ',' then trimmed.dropLast else trimmed
            match jsonParse (String.mk cleaned) with
            | some v => acc ++ streamPush v trimmed
            | none => acc ++ extractFromPartialLine trimmed) acc,
        JsNum.IsNonneg x.start ∧ JsNum.IsNonneg x.stop := by
    intro lines
    induction lines with
    | nil => intro acc hacc x hx; exact hacc x hx
    | cons l t ihl =>
      intro acc hacc x hx
      rw [List.foldl_cons] at hx
      refine ihl _ ?_ x hx
      intro y hy
      dsimp only at hy
      split at hy
      · exact hacc y hy
      · split at hy
        · exact hacc y hy
        · split at hy
          · rcases List.mem_append.mp hy with h | h
            · exact hacc y h
            · exact streamPush_nonneg _ _ y h
          · rcases List.mem_append.mp hy with h | h
            · exact hacc y h
            · exact extractFromPartialLine_nonneg _ y h
  exact fun he => hfold _ [] (by intro x hx; cases hx) e he

theorem scanTriples_good : ∀ (f : ℕ) (cs : List Char),
    ∀ e ∈ scanTriples f cs,
      JsNum.ltB e.start e.stop = true ∧ JsNum.IsNonneg e.start ∧ JsNum.IsNonneg e.stop := by
  intro f
  induction f with
  | zero => intro cs e he; cases he
  | succ f ih =>
    intro cs e he
    cases cs with
    | nil => cases he
    | cons c t =>
      simp only [scanTriples] at he
      split at he
      · rename_i cap1 cap2 cap3 rest heq
        rcases List.mem_append.mp he with h | h
        · split at h
          · rename_i hguard
            simp only [Bool.and_eq_true] at hguard
            rw [List.mem_singleton.mp h]
            exact ⟨hguard.1.2, timeToSeconds_nonneg (JsonValue.str (String.mk cap2)),
              timeToSeconds_nonneg (JsonValue.str (String.mk cap3))⟩
          · cases h
        · exact ih rest e h
      · exact ih t e he

theorem parseWithValidation_good (content : String) :
    ∀ e ∈ parseWithValidation content,
      JsNum.ltB e.start e.stop = true ∧ JsNum.IsNonneg e.start ∧ JsNum.IsNonneg e.stop := by
  intro e he
  unfold parseWithValidation at he
  rw [mem_sortEntries] at he
  exact scanTriples_good _ _ e he

end IndustryStandardVideoExtractor

namespace IndustryStandardVideoExtractor

set_option maxRecDepth 1000000 in
/-- Counterexample to a universal end > start >= 0 invariant over all three
parser strategies: on a single JSON object whose end (5) precedes its start
(10), the structure walker rejects the entry, so parseTimestampsRobustly
falls through to the line-oriented parseJSONStream, which pushes the entry
with no end-after-start validation; the overall parser emits an entry with
end < start. -/
theorem parseJSONStream_end_before_start_cex :
    ((parseTimestampsRobustly
        "\x7b\"text\": \"a\", \"start\": \"10\", \"end\": \"5\"\x7d").map
      (fun e => (e.text, e.start, e.stop)) = [("a", JsNum.val 10, JsNum.val 5)])
    ∧ JsNum.ltB (JsNum.val 10) (JsNum.val 5) = false := by
  exact ⟨by with_unfolding_all decide, by with_unfolding_all decide⟩

/-- C2: every entry produced by parseTimestampsRobustly has non-negative
start and end times (each is a timeToSeconds result, clamped at 0), and the
direct-JSON strategy and the validated-regex strategy additionally guarantee
end > start; the line-oriented stream strategy checks no such ordering, so
only non-negativity holds for the parser as a whole. -/
theorem parser_entries_invariant :
    (∀ (content : String) (e : TranscriptEntry), e ∈ parseTimestampsRobustly content →
        JsNum.IsNonneg e.start ∧ JsNum.IsNonneg e.stop) ∧
    (∀ (content : String) (e : TranscriptEntry),
        e ∈ parseDirectJSON content ∨ e ∈ parseWithValidation content →
        JsNum.ltB e.start e.stop = true ∧ JsNum.IsNonneg e.start ∧ JsNum.IsNonneg e.stop) := by
  constructor
  · intro content e he
    unfold parseTimestampsRobustly at he
    dsimp only at he
    split at he
    · exact (parseDirectJSON_good content e he).2
    · split at he
      · exact parseJSONStream_nonneg content e he
      · exact (parseWithValidation_good content e he).2
  · rintro content e (he | he)
    · exact parseDirectJSON_good content e he
    · exact parseWithValidation_good content e he

set_option maxRecDepth 1000000 in
/-- Concrete instance of the parser invariant on a well-formed one-entry
JSON object parsed by the direct strategy. -/
theorem parser_entries_invariant_witness :
    JsNum.ltB (JsNum.val 1) (JsNum.val 2) = true
      ∧ JsNum.IsNonneg (JsNum.val 1) ∧ JsNum.IsNonneg (JsNum.val 2) := by
  have hlist : parseDirectJSON "\x7b\"text\": \"a\", \"start\": \"1\", \"end\": \"2\"\x7d"
      = [TranscriptEntry.mk "a" (JsNum.val 1) (JsNum.val 2) (JsonValue.num 1)] := by
    with_unfolding_all rfl
  exact parser_entries_invariant.2
    "\x7b\"text\": \"a\", \"start\": \"1\", \"end\": \"2\"\x7d"
    (TranscriptEntry.mk "a" (JsNum.val 1) (JsNum.val 2) (JsonValue.num 1))
    (Or.inl (hlist ▸ List.mem_singleton.mpr rfl))

end IndustryStandardVideoExtractor
